import Mathlib

/-!
Sanitary Map AI: the report lifecycle engine of `src/App.jsx`.

A shallow embedding of the engine part of `src/App.jsx`: the severity
classifier `classifySeverity`, the storage adapter installed at the top of the
file, and the three operations `loadReports`, `handleSubmitReport` and
`updateReportStatus`.

Conventions of the embedding.

* JavaScript strings are Lean `String`s; every operation on them goes through
  the list of characters `String.data`, so that the definitions evaluate.
* The values in memory are JSON values (`Json`): the collection `reports` holds
  whatever `JSON.parse` returned, so a property access can meet `null` and throw.
* The language built-ins the source calls (`String.prototype.toLowerCase`,
  `JSON.stringify`, `JSON.parse`, `new Date(..)`, `toISOString`) are not code
  of the repository.  They are the fields of a record `Host`, every definition
  takes the host as its first argument, and every general theorem holds for all
  hosts (with the law of the built-in it relies on as an explicit hypothesis).
  `jsHost` is one concrete host used to evaluate the definitions.
* The storage adapter `window.storage` may be provided by the page; it is a
  record `Storage` of three fallible operations over a store state, and
  `fallbackStorage` is the adapter that the source installs over `localStorage`.
* The operations are asynchronous but run one at a time: each is a function
  from the store and the React state to the new store, the new state and the
  list of what the call did (alerts, console output, calls of `set`).
-/

namespace SanitaryMap

/-! ## Strings -/

/-- The test `s.startsWith(w)` on character lists. -/
def startsWith : List Char → List Char → Bool
  | _, [] => true
  | [], _ :: _ => false
  | c :: s, d :: w => c == d && startsWith s w

/-- The test `s.includes(w)` on character lists: `w` occurs in `s` at some position. -/
def includesChars : List Char → List Char → Bool
  | [], w => startsWith [] w
  | c :: s, w => startsWith (c :: s) w || includesChars s w

/-- The test `s.includes(w)` of `String.prototype.includes`. -/
def includes (s w : String) : Bool := includesChars s.data w.data

/-! ## Values -/

/-- A JavaScript number, kept as the decimal `mantissa * 10 ^ exponent`.  The engine never
computes with the numbers of a report (the coordinates); it only carries them. -/
structure JsNumber where
  mantissa : Int
  exponent : Int
  deriving DecidableEq, Repr

/-- The values the engine handles: what `JSON.parse` returns and what the object literals of
the source build.  The fields of an object are in property order. -/
inductive Json where
  | null
  | bool (b : Bool)
  | num (x : JsNumber)
  | str (s : String)
  | arr (items : List Json)
  | obj (fields : List (String × Json))
  deriving Repr

/-- The exceptions the engine can meet: a `TypeError` of a property access on `null`, and a
failure of the storage adapter. -/
inductive JsError where
  | typeError
  | storageError
  deriving DecidableEq, Repr

mutual
/-- Equality test on values. -/
def Json.beq : Json → Json → Bool
  | .null, .null => true
  | .bool a, .bool b => a == b
  | .num a, .num b => a == b
  | .str a, .str b => a == b
  | .arr a, .arr b => Json.beqItems a b
  | .obj a, .obj b => Json.beqFields a b
  | _, _ => false
/-- Equality test on arrays. -/
def Json.beqItems : List Json → List Json → Bool
  | [], [] => true
  | a :: as, b :: bs => Json.beq a b && Json.beqItems as bs
  | _, _ => false
/-- Equality test on the fields of objects. -/
def Json.beqFields : List (String × Json) → List (String × Json) → Bool
  | [], [] => true
  | (k, a) :: as, (l, b) :: bs => k == l && Json.beq a b && Json.beqFields as bs
  | _, _ => false
end

/-- The own property `k` of an object with the given fields, `none` for `undefined`. -/
def lookupField (k : String) : List (String × Json) → Option Json
  | [] => none
  | (k', v) :: rest => if k' = k then some v else lookupField k rest

/-- The property access `v.k`, for a property name that no array and no primitive wrapper
defines (the engine reads `id` and `date` only): a `TypeError` on `null`, `undefined` (here
`none`) when the property is missing. -/
def Json.getProp (v : Json) (k : String) : Except JsError (Option Json) :=
  match v with
  | .null => .error .typeError
  | .obj fields => .ok (lookupField k fields)
  | _ => .ok none

/-- The properties copied by the spread `{ ...v }` of an object.  (The engine spreads only
a value whose `id` is a string, which is an object.) -/
def Json.fields : Json → List (String × Json)
  | .obj fields => fields
  | _ => []

/-- The assignment of property `k` in an object literal after a spread: an existing
property keeps its position and takes the new value, a new property goes last. -/
def setField (k : String) (v : Json) : List (String × Json) → List (String × Json)
  | [] => [(k, v)]
  | (k', v') :: rest => if k' = k then (k, v) :: rest else (k', v') :: setField k v rest

/-- Whether a value is an object. -/
def Json.isObject : Json → Bool
  | .obj _ => true
  | _ => false

/-- The comparison `v === s` of a possibly undefined value with a string. -/
def strictEqString (v : Option Json) (s : String) : Bool :=
  match v with
  | some (.str t) => t = s
  | _ => false

/-! ## Host built-ins -/

/-- The language built-ins used by the engine, as parameters. -/
structure Host where
  /-- The built-in `String.prototype.toLowerCase`. -/
  toLowerCase : String → String
  /-- The built-in `JSON.stringify`, on the values above. -/
  stringify : Json → String
  /-- The built-in `JSON.parse`; `none` when it throws a `SyntaxError`. -/
  parse : String → Option Json
  /-- The time value, in milliseconds since the epoch, of `new Date(v)`; the argument `none`
  is `undefined` and the result `none` is `NaN` (an invalid date). -/
  newDate : Option Json → Option Int
  /-- The built-in `Date.prototype.toISOString` of the date with the given time value. -/
  toISOString : Nat → String

/-- The code points of the ECMAScript `WhiteSpace` and `LineTerminator` productions,
the characters `String.prototype.trim` removes. -/
def isWhiteSpace (c : Char) : Bool :=
  let n := c.toNat
  n = 0x09 || n = 0x0A || n = 0x0B || n = 0x0C || n = 0x0D || n = 0x20 || n = 0xA0
    || n = 0x1680 || (0x2000 ≤ n && n ≤ 0x200A) || n = 0x2028 || n = 0x2029
    || n = 0x202F || n = 0x205F || n = 0x3000 || n = 0xFEFF

/-- A string made of white space only (the empty string included). -/
def whitespaceOnly (s : String) : Prop := ∀ c ∈ s.data, isWhiteSpace c = true

/-- The built-in `toLowerCase` has no effect on white space. -/
def Host.LowerFixesWhiteSpace (H : Host) : Prop :=
  ∀ s : String, whitespaceOnly s → H.toLowerCase s = s

/-! ## The severity classifier (`classifySeverity`, lines 75-86) -/

/-- The value returned by `classifySeverity`: `{ level, color }`. -/
structure Severity where
  level : String
  color : String
  deriving DecidableEq, Repr

/-- The constant `highKeywords` of `classifySeverity`. -/
def highKeywords : List String :=
  ["urgent", "severe", "critical", "emergency", "overflow", "blocked", "dangerous"]

/-- The constant `mediumKeywords` of `classifySeverity`. -/
def mediumKeywords : List String :=
  ["dirty", "unclean", "smell", "garbage", "waste", "broken"]

/-- The function `classifySeverity` of `App.jsx`. -/
def classifySeverity (H : Host) (description : String) : Severity :=
  let desc := H.toLowerCase description
  let highCount := (highKeywords.filter (fun word => includes desc word)).length
  let mediumCount := (mediumKeywords.filter (fun word => includes desc word)).length
  if highCount > 0 then { level := "high", color := "#ef4444" }
  else if mediumCount > 0 then { level := "medium", color := "#eab308" }
  else { level := "low", color := "#22c55e" }

/-! ## The storage adapter (`window.storage`) -/

/-- The capability set the engine uses, over a store state `σ`.  `list` answers
`{ keys }` (`none` stands for an answer that is falsy or has no `keys`), `get` answers
`{ value }` or `null` (`none`), `set` answers the new store state; each may throw. -/
structure Storage (σ : Type) where
  list : σ → String → Except JsError (Option (List String))
  get : σ → String → Except JsError (Option String)
  set : σ → String → String → Except JsError σ

/-- The browser's `localStorage`: its entries in the order of `localStorage.key(i)`, and the
space it offers (`setItem` throws when the entries would outgrow it). -/
structure LocalStorage where
  items : List (String × String)
  quota : Nat
  deriving DecidableEq, Repr

/-- The space taken by entries: the lengths of their keys and values. -/
def itemsSize : List (String × String) → Nat
  | [] => 0
  | (k, v) :: rest => k.length + v.length + itemsSize rest

/-- The entries after `setItem(key, value)`: an existing key keeps its place. -/
def putItem (key value : String) : List (String × String) → List (String × String)
  | [] => [(key, value)]
  | (k, v) :: rest => if k = key then (key, value) :: rest else (k, v) :: putItem key value rest

/-- The call `localStorage.getItem(key)`. -/
def LocalStorage.getItem (ls : LocalStorage) (key : String) : Option String :=
  (ls.items.find? (fun kv => kv.1 = key)).map (fun kv => kv.2)

/-- The call `localStorage.setItem(key, value)`. -/
def LocalStorage.setItem (ls : LocalStorage) (key value : String) : Except JsError LocalStorage :=
  if itemsSize (putItem key value ls.items) ≤ ls.quota then
    .ok { ls with items := putItem key value ls.items }
  else .error .storageError

/-- The adapter installed at lines 5-27 when the host provides none. -/
def fallbackStorage : Storage LocalStorage where
  list := fun ls pfx =>
    .ok (some ((ls.items.map (fun kv => kv.1)).filter
      (fun k => k ≠ "" && startsWith k.data pfx.data)))
  get := fun ls key => .ok (ls.getItem key)
  set := fun ls key value => ls.setItem key value

/-! ## The state of the application -/

/-- The coordinate pair `{ lat, lng }`. -/
structure Location where
  lat : JsNumber
  lng : JsNumber
  deriving DecidableEq, Repr

/-- The state `formData`. -/
structure FormData where
  userName : String
  description : String
  image : Option String
  location : Option Location
  deriving DecidableEq, Repr

/-- The React state of `App` that the engine reads or writes. -/
structure App where
  view : String
  reports : List Json
  formData : FormData
  selectedReport : Option Json
  deriving Repr

/-- What a call does besides changing the state, in order. -/
inductive Event where
  | alert (message : String)
  | consoleLog (message : String)
  | consoleError
  | storageSet (key value : String)
  | renderError
  deriving DecidableEq, Repr

/-- The result of a call: the store, the state, and what it did. -/
structure Run (σ : Type) where
  store : σ
  app : App
  events : List Event

/-! ## `loadReports` (lines 50-72) -/

/-- The loop of lines 55-64: the parsed value of every key that has one. -/
def loadValues {σ : Type} (H : Host) (S : Storage σ) (store : σ) :
    List String → Except JsError (List Json)
  | [] => .ok []
  | key :: keys =>
    match S.get store key with
    | .error e => .error e
    | .ok none => loadValues H S store keys
    | .ok (some value) =>
      match H.parse value with
      | none => loadValues H S store keys
      | some v =>
        match loadValues H S store keys with
        | .error e => .error e
        | .ok vs => .ok (v :: vs)

/-- The subtraction of two time values; `NaN` (`none`) when one of them is `NaN`. -/
def timeDifference : Option Int → Option Int → Option Int
  | some x, some y => some (x - y)
  | _, _ => none

/-- The comparator `(a, b) => new Date(b.date) - new Date(a.date)` of line 66; the result
`none` is `NaN`. -/
def dateDifference (H : Host) (a b : Json) : Except JsError (Option Int) :=
  match b.getProp "date" with
  | .error e => .error e
  | .ok bd =>
    match a.getProp "date" with
    | .error e => .error e
    | .ok ad => .ok (timeDifference (H.newDate bd) (H.newDate ad))

/-- Whether a comparator result puts its first argument after its second: the result is
positive (`NaN` counts as zero). -/
def isPositive : Option Int → Bool
  | some v => decide (0 < v)
  | none => false

/-- Insert `x`, which came before the elements of the sorted list, at its place. -/
def insertSorted (cmp : Json → Json → Except JsError (Option Int)) (x : Json) :
    List Json → Except JsError (List Json)
  | [] => .ok [x]
  | y :: ys =>
    match cmp x y with
    | .error e => .error e
    | .ok r =>
      if isPositive r then
        match insertSorted cmp x ys with
        | .error e => .error e
        | .ok zs => .ok (y :: zs)
      else .ok (x :: y :: ys)

/-- The call `array.sort(cmp)`: a stable sort, here by insertion.  (For a comparator that
is not a consistent order the built-in's result is implementation-defined.) -/
def sortWith (cmp : Json → Json → Except JsError (Option Int)) :
    List Json → Except JsError (List Json)
  | [] => .ok []
  | x :: xs =>
    match sortWith cmp xs with
    | .error e => .error e
    | .ok ys => insertSorted cmp x ys

/-- The function `loadReports` of `App.jsx`. -/
def loadReports {σ : Type} (H : Host) (S : Storage σ) (store : σ) (app : App) : Run σ :=
  match S.list store "report:" with
  | .error _ => ⟨store, app, [.consoleLog "No existing reports found"]⟩
  | .ok none => ⟨store, app, []⟩
  | .ok (some keys) =>
    match loadValues H S store keys with
    | .error _ => ⟨store, app, [.consoleLog "No existing reports found"]⟩
    | .ok loadedReports =>
      match sortWith (dateDifference H) loadedReports with
      | .error _ => ⟨store, app, [.consoleLog "No existing reports found"]⟩
      | .ok sorted => ⟨store, { app with reports := sorted }, []⟩

/-! ## `handleSubmitReport` (lines 127-158) -/

/-- The decimal digits of a natural number, most significant first (`fuel` bounds their
number). -/
def natDigitsAux : Nat → Nat → List Char → List Char
  | 0, _, acc => acc
  | fuel + 1, n, acc =>
    if n / 10 = 0 then Char.ofNat (48 + n % 10) :: acc
    else natDigitsAux fuel (n / 10) (Char.ofNat (48 + n % 10) :: acc)

/-- The decimal numeral of a natural number, which is what a template literal makes of an
integer below `1e21`. -/
def natDigits (n : Nat) : List Char := natDigitsAux (n + 1) n []

/-- The value of `location` in a report. -/
def Location.toJson (l : Location) : Json :=
  .obj [("lat", .num l.lat), ("lng", .num l.lng)]

/-- The value of `image` in a report: `null` or the data URL. -/
def imageJson : Option String → Json
  | none => .null
  | some url => .str url

/-- The identifier of line 140 for the clock reading `now` of `Date.now()`. -/
def newReportId (now : Nat) : String := "report_" ++ String.mk (natDigits now)

/-- The object `newReport` of lines 139-146, for the readings `now` of `Date.now()` and
`today` of `new Date()`. -/
def newReport (H : Host) (now today : Nat) (form : FormData) (location : Location) : Json :=
  let severity := classifySeverity H form.description
  .obj [("id", .str (newReportId now)),
        ("userName", .str form.userName),
        ("description", .str form.description),
        ("image", imageJson form.image),
        ("location", location.toJson),
        ("severity", .str severity.level),
        ("color", .str severity.color),
        ("date", .str (H.toISOString today)),
        ("status", .str "pending")]

/-- The form after a successful submission (line 152). -/
def emptyForm : FormData :=
  { userName := "", description := "", image := none, location := none }

/-- The function `handleSubmitReport` of `App.jsx`, with the two clock readings it takes. -/
def handleSubmitReport {σ : Type} (H : Host) (S : Storage σ) (now today : Nat)
    (store : σ) (app : App) : Run σ :=
  if app.formData.userName = "" ∨ app.formData.description = "" then
    ⟨store, app, [.alert "Please fill in all required fields"]⟩
  else
    match app.formData.location with
    | none => ⟨store, app, [.alert "Please capture your location first"]⟩
    | some location =>
      let report := newReport H now today app.formData location
      let key := "report:" ++ newReportId now
      match S.set store key (H.stringify report) with
      | .ok store' =>
        ⟨store',
         { app with reports := report :: app.reports, formData := emptyForm, view := "home" },
         [.storageSet key (H.stringify report), .alert "Report submitted successfully!"]⟩
      | .error _ =>
        ⟨store, app,
         [.storageSet key (H.stringify report), .consoleError,
          .alert "Failed to submit report. Please try again."]⟩

/-! ## `updateReportStatus` (lines 169-183) -/

/-- The call `reports.find((r) => r.id === reportId)`. -/
def findById (reportId : String) : List Json → Except JsError (Option Json)
  | [] => .ok none
  | r :: rs =>
    match r.getProp "id" with
    | .error e => .error e
    | .ok v => if strictEqString v reportId then .ok (some r) else findById reportId rs

/-- The call `prev.map((r) => (r.id === reportId ? updatedReport : r))`. -/
def replaceById (reportId : String) (updatedReport : Json) :
    List Json → Except JsError (List Json)
  | [] => .ok []
  | r :: rs =>
    match r.getProp "id" with
    | .error e => .error e
    | .ok v =>
      match replaceById reportId updatedReport rs with
      | .error e => .error e
      | .ok rs' => .ok ((if strictEqString v reportId then updatedReport else r) :: rs')

/-- The object `{ ...report, status: newStatus }` of line 173. -/
def withStatus (report : Json) (newStatus : String) : Json :=
  .obj (setField "status" (.str newStatus) report.fields)

/-- The test `selectedReport?.id === reportId` of line 176. -/
def selectedHasId (selected : Option Json) (reportId : String) : Bool :=
  match selected with
  | none => false
  | some .null => false
  | some v =>
    match v.getProp "id" with
    | .ok w => strictEqString w reportId
    | .error _ => false

/-- The function `updateReportStatus` of `App.jsx`.  The updater passed to `setReports`
runs inside React: when it throws, nothing of the function catches it. -/
def updateReportStatus {σ : Type} (H : Host) (S : Storage σ) (reportId newStatus : String)
    (store : σ) (app : App) : Run σ :=
  match findById reportId app.reports with
  | .error _ => ⟨store, app, [.alert "Failed to update status"]⟩
  | .ok none => ⟨store, app, []⟩
  | .ok (some report) =>
    let updatedReport := withStatus report newStatus
    let key := "report:" ++ reportId
    match S.set store key (H.stringify updatedReport) with
    | .error _ =>
      ⟨store, app, [.storageSet key (H.stringify updatedReport), .alert "Failed to update status"]⟩
    | .ok store' =>
      let selected :=
        if selectedHasId app.selectedReport reportId then some updatedReport
        else app.selectedReport
      match replaceById reportId updatedReport app.reports with
      | .ok reports' =>
        ⟨store', { app with reports := reports', selectedReport := selected },
         [.storageSet key (H.stringify updatedReport)]⟩
      | .error _ =>
        ⟨store', { app with selectedReport := selected },
         [.storageSet key (H.stringify updatedReport), .renderError]⟩

/-! ## A concrete host -/

/-- The numeral of `n` padded with zeros on the left to `width` digits. -/
def padDigits (width n : Nat) : List Char :=
  let ds := natDigits n
  List.replicate (width - ds.length) '0' ++ ds

/-- The positional decimal numeral of a number, which is how `JSON.stringify` writes a
number from `1e-6` up to `1e21` (beyond, the built-in writes an exponent). -/
def numberChars (x : JsNumber) : List Char :=
  let sign : List Char := if x.mantissa < 0 then ['-'] else []
  let ds := natDigits x.mantissa.natAbs
  if x.mantissa = 0 then ['0']
  else if 0 ≤ x.exponent then sign ++ ds ++ List.replicate x.exponent.toNat '0'
  else
    let k := (-x.exponent).toNat
    if k < ds.length then sign ++ ds.take (ds.length - k) ++ ['.'] ++ ds.drop (ds.length - k)
    else sign ++ ['0', '.'] ++ List.replicate (k - ds.length) '0' ++ ds

/-- The hexadecimal digit of a number below 16. -/
def hexDigit (n : Nat) : Char :=
  if n < 10 then Char.ofNat (48 + n) else Char.ofNat (87 + n)

/-- The text of one character inside a JSON string, as `JSON.stringify` quotes it. -/
def escapeChar (c : Char) : List Char :=
  let n := c.toNat
  if n = 34 then [Char.ofNat 92, Char.ofNat 34]
  else if n = 92 then [Char.ofNat 92, Char.ofNat 92]
  else if n = 8 then [Char.ofNat 92, 'b']
  else if n = 9 then [Char.ofNat 92, 't']
  else if n = 10 then [Char.ofNat 92, 'n']
  else if n = 12 then [Char.ofNat 92, 'f']
  else if n = 13 then [Char.ofNat 92, 'r']
  else if n < 32 then [Char.ofNat 92, 'u', '0', '0', hexDigit (n / 16), hexDigit (n % 16)]
  else [c]

/-- A quoted JSON string. -/
def quoteChars (s : String) : List Char :=
  [Char.ofNat 34] ++ s.data.flatMap escapeChar ++ [Char.ofNat 34]

mutual
/-- The text `JSON.stringify` yields for a value: no white space, fields in property order. -/
def stringifyChars : Json → List Char
  | .null => "null".data
  | .bool true => "true".data
  | .bool false => "false".data
  | .num x => numberChars x
  | .str s => quoteChars s
  | .arr items => ['['] ++ stringifyItems items ++ [']']
  | .obj fields => [Char.ofNat 123] ++ stringifyFields fields ++ [Char.ofNat 125]
/-- The elements of an array, separated by commas. -/
def stringifyItems : List Json → List Char
  | [] => []
  | [v] => stringifyChars v
  | v :: rest => stringifyChars v ++ [','] ++ stringifyItems rest
/-- The members of an object, separated by commas. -/
def stringifyFields : List (String × Json) → List Char
  | [] => []
  | [(k, v)] => quoteChars k ++ [':'] ++ stringifyChars v
  | (k, v) :: rest => quoteChars k ++ [':'] ++ stringifyChars v ++ [','] ++ stringifyFields rest
end

/-- A concrete `JSON.stringify`. -/
def jsonStringify (v : Json) : String := String.mk (stringifyChars v)


/-- JSON white space: space, tab, line feed, carriage return. -/
def isJsonWs (c : Char) : Bool :=
  c.toNat = 32 || c.toNat = 9 || c.toNat = 10 || c.toNat = 13

/-- Drop leading JSON white space. -/
def skipWs : List Char → List Char
  | [] => []
  | c :: cs => if isJsonWs c then skipWs cs else c :: cs

/-- The value of a decimal digit. -/
def digitValue (c : Char) : Option Nat :=
  if 48 ≤ c.toNat ∧ c.toNat ≤ 57 then some (c.toNat - 48) else none

/-- The value of a hexadecimal digit. -/
def hexValue (c : Char) : Option Nat :=
  if 48 ≤ c.toNat ∧ c.toNat ≤ 57 then some (c.toNat - 48)
  else if 97 ≤ c.toNat ∧ c.toNat ≤ 102 then some (c.toNat - 87)
  else if 65 ≤ c.toNat ∧ c.toNat ≤ 70 then some (c.toNat - 55)
  else none

/-- Read a (possibly empty) run of digits: their value so far, their count, the rest. -/
def readDigits : List Char → Nat → Nat → Nat × Nat × List Char
  | [], acc, count => (acc, count, [])
  | c :: cs, acc, count =>
    match digitValue c with
    | some d => readDigits cs (acc * 10 + d) (count + 1)
    | none => (acc, count, c :: cs)

/-- Remove the trailing zeros of a non-zero mantissa into the exponent. -/
def normalizeAux : Nat → Nat → Int → Nat × Int
  | 0, m, e => (m, e)
  | fuel + 1, m, e => if m % 10 = 0 ∧ m ≠ 0 then normalizeAux fuel (m / 10) (e + 1) else (m, e)

/-- The number with the given sign, digits and exponent, in normal form. -/
def mkNumber (negative : Bool) (m : Nat) (e : Int) : JsNumber :=
  if m = 0 then ⟨0, 0⟩
  else
    let r := normalizeAux m m e
    ⟨if negative then -(r.1 : Int) else (r.1 : Int), r.2⟩

/-- Read the four hexadecimal digits of a `\u` escape. -/
def readHex4 : List Char → Option (Nat × List Char)
  | a :: b :: c :: d :: rest =>
    match hexValue a, hexValue b, hexValue c, hexValue d with
    | some x, some y, some z, some w => some (((x * 16 + y) * 16 + z) * 16 + w, rest)
    | _, _, _, _ => none
  | _ => none

/-- Read the characters of a JSON string after its opening quote, up to the closing one.
An escape of a lone surrogate, which a `Char` cannot hold, is refused. -/
def readString : Nat → List Char → List Char → Option (String × List Char)
  | 0, _, _ => none
  | _ + 1, [], _ => none
  | fuel + 1, c :: cs, acc =>
    if c.toNat = 34 then some (String.mk acc.reverse, cs)
    else if c.toNat = 92 then
      match cs with
      | [] => none
      | e :: rest =>
        if e.toNat = 34 then readString fuel rest (Char.ofNat 34 :: acc)
        else if e.toNat = 92 then readString fuel rest (Char.ofNat 92 :: acc)
        else if e = '/' then readString fuel rest ('/' :: acc)
        else if e = 'b' then readString fuel rest (Char.ofNat 8 :: acc)
        else if e = 'f' then readString fuel rest (Char.ofNat 12 :: acc)
        else if e = 'n' then readString fuel rest (Char.ofNat 10 :: acc)
        else if e = 'r' then readString fuel rest (Char.ofNat 13 :: acc)
        else if e = 't' then readString fuel rest (Char.ofNat 9 :: acc)
        else if e = 'u' then
          match readHex4 rest with
          | none => none
          | some (u, rest) =>
            if 0xD800 ≤ u ∧ u ≤ 0xDBFF then
              match rest with
              | b :: v :: rest2 =>
                if b.toNat = 92 ∧ v = 'u' then
                  match readHex4 rest2 with
                  | some (l, rest3) =>
                    if 0xDC00 ≤ l ∧ l ≤ 0xDFFF then
                      readString fuel rest3
                        (Char.ofNat (0x10000 + (u - 0xD800) * 0x400 + (l - 0xDC00)) :: acc)
                    else none
                  | none => none
                else none
              | _ => none
            else if 0xDC00 ≤ u ∧ u ≤ 0xDFFF then none
            else readString fuel rest (Char.ofNat u :: acc)
        else none
    else if c.toNat < 32 then none
    else readString fuel cs (c :: acc)

/-- Read the optional minus sign of a number. -/
def readSign : List Char → Bool × List Char
  | [] => (false, [])
  | c :: cs => if c = '-' then (true, cs) else (false, c :: cs)

/-- Read the integer part of a number: `0`, or a non-zero digit and more digits. -/
def readInt : List Char → Option (Nat × List Char)
  | [] => none
  | c :: cs =>
    match digitValue c with
    | none => none
    | some d =>
      if d = 0 then some (0, cs)
      else
        let r := readDigits cs d 1
        some (r.1, r.2.2)

/-- Read the optional fraction of a number whose digits so far have value `m`: the value
with the fraction digits appended, their count, the rest.  A dot needs a digit. -/
def readFrac (m : Nat) : List Char → Option (Nat × Nat × List Char)
  | [] => some (m, 0, [])
  | c :: cs =>
    if c = '.' then
      let r := readDigits cs m 0
      if r.2.1 = 0 then none else some r
    else some (m, 0, c :: cs)

/-- Read the optional exponent of a number.  An `e` needs a digit. -/
def readExp : List Char → Option (Int × List Char)
  | [] => some (0, [])
  | c :: cs =>
    if c = 'e' ∨ c = 'E' then
      let signed : Bool × List Char := match cs with
        | [] => (false, [])
        | s :: r => if s = '-' then (true, r) else if s = '+' then (false, r) else (false, s :: r)
      let r := readDigits signed.2 0 0
      if r.2.1 = 0 then none
      else some (if signed.1 then -(r.1 : Int) else (r.1 : Int), r.2.2)
    else some (0, c :: cs)

/-- Read a JSON number: an optional minus sign, an integer part, an optional fraction, an
optional exponent. -/
def readNumber (cs : List Char) : Option (JsNumber × List Char) :=
  let signed := readSign cs
  match readInt signed.2 with
  | none => none
  | some (i, cs1) =>
    match readFrac i cs1 with
    | none => none
    | some (m, count, cs2) =>
      match readExp cs2 with
      | none => none
      | some (e, cs3) => some (mkNumber signed.1 m (e - (count : Int)), cs3)

mutual
/-- Read one JSON value (after optional white space) and return it with the rest of the
text.  `fuel` bounds the number of values read. -/
def readValue : Nat → List Char → Option (Json × List Char)
  | 0, _ => none
  | fuel + 1, cs =>
    match skipWs cs with
    | [] => none
    | c :: rest =>
      if c.toNat = 34 then
        match readString (rest.length + 1) rest [] with
        | some (s, rest) => some (.str s, rest)
        | none => none
      else if c = '[' then
        match skipWs rest with
        | [] => none
        | d :: rest2 =>
          if d = ']' then some (.arr [], rest2) else readItems fuel (d :: rest2) []
      else if c.toNat = 123 then
        match skipWs rest with
        | [] => none
        | d :: rest2 =>
          if d.toNat = 125 then some (.obj [], rest2) else readMembers fuel (d :: rest2) []
      else if startsWith (c :: rest) "null".data then some (.null, rest.drop 3)
      else if startsWith (c :: rest) "true".data then some (.bool true, rest.drop 3)
      else if startsWith (c :: rest) "false".data then some (.bool false, rest.drop 4)
      else
        match readNumber (c :: rest) with
        | some (x, rest) => some (.num x, rest)
        | none => none
/-- Read the elements of an array up to the closing bracket; `acc` holds the elements read,
latest first. -/
def readItems : Nat → List Char → List Json → Option (Json × List Char)
  | 0, _, _ => none
  | fuel + 1, cs, acc =>
    match readValue fuel cs with
    | none => none
    | some (v, rest) =>
      match skipWs rest with
      | [] => none
      | d :: rest2 =>
        if d = ',' then readItems fuel rest2 (v :: acc)
        else if d = ']' then some (.arr (v :: acc).reverse, rest2)
        else none
/-- Read the members of an object up to the closing brace; `acc` holds the members read.
A name that comes twice keeps its first place and takes the later value. -/
def readMembers : Nat → List Char → List (String × Json) → Option (Json × List Char)
  | 0, _, _ => none
  | fuel + 1, cs, acc =>
    match skipWs cs with
    | [] => none
    | q :: rest =>
      if q.toNat = 34 then
        match readString (rest.length + 1) rest [] with
        | none => none
        | some (k, rest1) =>
          match skipWs rest1 with
          | [] => none
          | colon :: rest2 =>
            if colon = ':' then
              match readValue fuel rest2 with
              | none => none
              | some (v, rest3) =>
                match skipWs rest3 with
                | [] => none
                | d :: rest4 =>
                  if d = ',' then readMembers fuel rest4 (setField k v acc)
                  else if d.toNat = 125 then some (.obj (setField k v acc), rest4)
                  else none
            else none
      else none
end

/-- A concrete `JSON.parse`: one value, white space around it, nothing else.  The members of
an object are kept in the order of the text (the built-in puts index-like names first). -/
def jsonParse (s : String) : Option Json :=
  match readValue (s.data.length + 1) s.data with
  | none => none
  | some (v, rest) =>
    match skipWs rest with
    | [] => some v
    | _ :: _ => none


/-! ### Dates -/

/-- The civil date (year, month, day) of a day number counted from 1970-01-01. -/
def civilFromDays (days : Nat) : Nat × Nat × Nat :=
  let z := days + 719468
  let era := z / 146097
  let doe := z % 146097
  let yoe := (doe - doe / 1460 + doe / 36524 - doe / 146096) / 365
  let doy := doe - (365 * yoe + yoe / 4 - yoe / 100)
  let mp := (5 * doy + 2) / 153
  let d := doy - (153 * mp + 2) / 5 + 1
  let m := if mp < 10 then mp + 3 else mp - 9
  let y := yoe + era * 400
  (if m ≤ 2 then y + 1 else y, m, d)

/-- The day number, counted from 1970-01-01, of a civil date. -/
def daysFromCivil (y m d : Nat) : Int :=
  let y' : Int := if m ≤ 2 then (y : Int) - 1 else y
  let era := y' / 400
  let yoe := y' - era * 400
  let mp : Int := if m > 2 then (m : Int) - 3 else (m : Int) + 9
  let doy := (153 * mp + 2) / 5 + (d : Int) - 1
  let doe := yoe * 365 + yoe / 4 - yoe / 100 + doy
  era * 146097 + doe - 719468

/-- The number of days of a month. -/
def daysInMonth (y m : Nat) : Nat :=
  if m = 2 then (if y % 4 = 0 ∧ (y % 100 ≠ 0 ∨ y % 400 = 0) then 29 else 28)
  else if m = 4 ∨ m = 6 ∨ m = 9 ∨ m = 11 then 30 else 31

/-- A concrete `toISOString`, for a time value in the range of dates:
`YYYY-MM-DDTHH:mm:ss.sssZ`, the year with a sign and six digits from the year 10000 on. -/
def isoString (t : Nat) : String :=
  let date := civilFromDays (t / 86400000)
  let year := if date.1 ≤ 9999 then padDigits 4 date.1 else ['+'] ++ padDigits 6 date.1
  String.mk (year ++ ['-'] ++ padDigits 2 date.2.1 ++ ['-'] ++ padDigits 2 date.2.2
    ++ ['T'] ++ padDigits 2 (t / 3600000 % 24) ++ [':'] ++ padDigits 2 (t / 60000 % 60)
    ++ [':'] ++ padDigits 2 (t / 1000 % 60) ++ ['.'] ++ padDigits 3 (t % 1000) ++ ['Z'])

/-- The value of a run of decimal digits, `none` when a character is not a digit. -/
def digitsValue : List Char → Option Nat
  | [] => some 0
  | cs => cs.foldl (fun acc c => match acc, digitValue c with
      | some a, some d => some (a * 10 + d)
      | _, _ => none) (some 0)

/-- The time value of the text `YYYY-MM-DDTHH:mm:ss.sssZ`, `none` for any other text. -/
def parseIso (s : String) : Option Int :=
  match s.data with
  | [y1, y2, y3, y4, a, m1, m2, b, d1, d2, t, h1, h2, c, n1, n2, e, s1, s2, p, f1, f2, f3, z] =>
    if a = '-' ∧ b = '-' ∧ t = 'T' ∧ c = ':' ∧ e = ':' ∧ p = '.' ∧ z = 'Z' then
      match digitsValue [y1, y2, y3, y4], digitsValue [m1, m2], digitsValue [d1, d2],
          digitsValue [h1, h2], digitsValue [n1, n2], digitsValue [s1, s2],
          digitsValue [f1, f2, f3] with
      | some y, some m, some d, some h, some mi, some sec, some ms =>
        if 1 ≤ m ∧ m ≤ 12 ∧ 1 ≤ d ∧ d ≤ daysInMonth y m ∧ h ≤ 23 ∧ mi ≤ 59 ∧ sec ≤ 59 then
          some ((((daysFromCivil y m d * 24 + h) * 60 + mi) * 60 + sec) * 1000 + ms)
        else none
      | _, _, _, _, _, _, _ => none
    else none
  | _ => none

/-- The time value of a number: its integer part, invalid beyond 8.64e15 milliseconds. -/
def clipTime (x : JsNumber) : Option Int :=
  let whole : Int :=
    if 0 ≤ x.exponent then x.mantissa * 10 ^ x.exponent.toNat
    else Int.sign x.mantissa * ((x.mantissa.natAbs / 10 ^ (-x.exponent).toNat : Nat) : Int)
  if whole.natAbs ≤ 8640000000000000 then some whole else none

/-- A concrete `new Date(v)` time value: `undefined` is invalid, `null` is the epoch, a
boolean is 0 or 1, a number is its integer part, a string is read in the format of
`toISOString`.  (The built-in reads more formats of text, and turns an array or an object
into text first; all these are taken as invalid here.) -/
def dateValue : Option Json → Option Int
  | none => none
  | some .null => some 0
  | some (.bool b) => some (if b then 1 else 0)
  | some (.num x) => clipTime x
  | some (.str s) => parseIso s
  | some _ => none


/-- Lower-casing of the letters `A` to `Z`, every other character unchanged. -/
def asciiLower (c : Char) : Char :=
  if 65 ≤ c.toNat ∧ c.toNat ≤ 90 then Char.ofNat (c.toNat + 32) else c

/-- A concrete host, to evaluate the definitions: `toLowerCase` maps the letters `A` to `Z`
(the only capitals the sample inputs use), the other built-ins are the functions above. -/
def jsHost : Host where
  toLowerCase := fun s => String.mk (s.data.map asciiLower)
  stringify := jsonStringify
  parse := jsonParse
  newDate := dateValue
  toISOString := isoString

/-! ## Reading the collection -/

/-- Whether the entry `r` has the identifier `reportId`: the test `r.id === reportId`. -/
def hasId (r : Json) (reportId : String) : Bool :=
  strictEqString (lookupField "id" r.fields) reportId

/-- The status of an entry, `none` when it has none. -/
def statusOf (r : Json) : Option Json := lookupField "status" r.fields

/-- The time value of the date of an entry: `new Date(r.date)`, `none` when invalid. -/
def timeOf (H : Host) (r : Json) : Option Int := H.newDate (lookupField "date" r.fields)

/-- The entry `a` has a valid date that is not older than the valid date of `b`. -/
def NewerEq (H : Host) (a b : Json) : Prop :=
  ∃ ta tb, timeOf H a = some ta ∧ timeOf H b = some tb ∧ tb ≤ ta

/-- The parsed value stored under a key, when there is one. -/
def storedValue {σ : Type} (H : Host) (S : Storage σ) (store : σ) (key : String) :
    Option Json :=
  match S.get store key with
  | .ok (some text) => H.parse text
  | _ => none

/-- The id of an entry, `none` when it has none. -/
def idOf (r : Json) : Option Json := lookupField "id" r.fields

/-- The number that a run of decimal digits denotes, continuing from `init`. -/
def decodeDigits (init : Nat) (cs : List Char) : Nat :=
  cs.foldl (fun a c => a * 10 + (c.toNat - 48)) init

/-- One use of the form: the user fills it in, then `handleSubmitReport` runs with the clock
readings `now` of `Date.now()` and `today` of `new Date()`. -/
structure Submission where
  form : FormData
  now : Nat
  today : Nat

/-- A sequence of submissions, one after the other. -/
def submitAll {σ : Type} (H : Host) (S : Storage σ) : List Submission → σ → App → σ × App
  | [], store, app => (store, app)
  | s :: rest, store, app =>
    submitAll H S rest
      (handleSubmitReport H S s.now s.today store { app with formData := s.form }).store
      (handleSubmitReport H S s.now s.today store { app with formData := s.form }).app

/-- The three pairs of level and colour that `classifySeverity` returns (lines 83-85):
high with red, medium with yellow, low with green. -/
def severityTable : List Severity :=
  [{ level := "high", color := "#ef4444" },
   { level := "medium", color := "#eab308" },
   { level := "low", color := "#22c55e" }]

/-- The severity and the colour of an entry are a pair of the table. -/
def InTable (r : Json) : Prop :=
  ∃ p ∈ severityTable, lookupField "severity" r.fields = some (.str p.level) ∧
    lookupField "color" r.fields = some (.str p.color)

/-- A call of one of the two operations that write: a submission of a filled form, or a
status update. -/
inductive Action where
  | submit (form : FormData) (now today : Nat)
  | setStatus (reportId newStatus : String)

/-- The run of one call. -/
def perform {σ : Type} (H : Host) (S : Storage σ) (a : Action) (store : σ) (app : App) :
    Run σ :=
  match a with
  | .submit form now today => handleSubmitReport H S now today store { app with formData := form }
  | .setStatus reportId newStatus => updateReportStatus H S reportId newStatus store app

/-- A sequence of calls, one after the other. -/
def performAll {σ : Type} (H : Host) (S : Storage σ) : List Action → σ → App → σ × App
  | [], store, app => (store, app)
  | a :: rest, store, app =>
    performAll H S rest (perform H S a store app).store (perform H S a store app).app

/-! ## The dashboard (lines 517-524 and 566-619) -/

/-- The place of the status of an entry in the order pending, in-progress, resolved. -/
def statusRank (r : Json) : Nat :=
  if strictEqString (statusOf r) "resolved" then 2
  else if strictEqString (statusOf r) "in-progress" then 1
  else 0

/-- The entry `r'` is the entry `r` moved forward: the same id, a status further in the
order, and nothing else changed. -/
def Forward (r r' : Json) : Prop :=
  idOf r' = idOf r ∧ statusRank r < statusRank r' ∧
    (r' = withStatus r "in-progress" ∨ r' = withStatus r "resolved")

/-- From the state `a` to the state `b` every entry of the collection stays or moves
forward, at its position. -/
def MovesForward (a b : App) : Prop :=
  a.reports.length = b.reports.length ∧
  ∀ i : Nat, a.reports[i]? = b.reports[i]? ∨
    ∃ r r', a.reports[i]? = some r ∧ b.reports[i]? = some r' ∧ Forward r r'

/-- A filled form: the sample description of the specification and a captured location. -/
def sampleForm : FormData :=
  { userName := "Asha", description := "URGENT overflow near garbage bin", image := none,
    location := some ⟨⟨159129, -4⟩, ⟨7974, -2⟩⟩ }

/-- The location of the sample form. -/
def sampleLocation : Location := ⟨⟨159129, -4⟩, ⟨7974, -2⟩⟩

/-- The application on the report view, no report loaded, the form filled. -/
def sampleApp : App :=
  { view := "report", reports := [], formData := sampleForm, selectedReport := none }

/-- An empty `localStorage` with room for the samples. -/
def emptyStore : LocalStorage := { items := [], quota := 100000 }

/-- The report that a submission of the sample form builds. -/
def sampleReport : Json :=
  newReport jsHost 1700000000000 1700000000001 sampleForm sampleLocation

/-- The run of one submission of the sample form. -/
def created : Run LocalStorage :=
  handleSubmitReport jsHost fallbackStorage 1700000000000 1700000000001 emptyStore sampleApp

/-- The run that marks the report of `created` resolved. -/
def resolved : Run LocalStorage :=
  updateReportStatus jsHost fallbackStorage "report_1700000000000" "resolved"
    created.store created.app

/-- The report that a submission of the sample form at the clock reading `t` builds. -/
def reportAt (t : Nat) : Json := newReport jsHost t t sampleForm sampleLocation

/-- A `localStorage` holding three reports submitted at the readings 1000, 2000 and 3000,
listed in another order, and an entry of another application. -/
def shuffledStore : LocalStorage :=
  { items := [("report:report_2000", jsonStringify (reportAt 2000)),
              ("theme", "dark"),
              ("report:report_3000", jsonStringify (reportAt 3000)),
              ("report:report_1000", jsonStringify (reportAt 1000))],
    quota := 100000 }

/-- A `localStorage` holding one report, the text of a number, the text of an object
without fields, and a text that is not JSON. -/
def mixedStore : LocalStorage :=
  { items := [("report:report_1000", jsonStringify (reportAt 1000)),
              ("report:number", "5"),
              ("report:empty", "\x7b\x7d"),
              ("report:broken", "\x7b\"id\":")],
    quota := 100000 }

/-- A `localStorage` holding one report and a text that is not JSON. -/
def corruptedStore : LocalStorage :=
  { items := [("report:broken", "\x7b\"id\":"),
              ("report:report_1000", jsonStringify (reportAt 1000))],
    quota := 100000 }

/-- A `localStorage` holding one report and the text `null`. -/
def nullStore : LocalStorage :=
  { items := [("report:report_1000", jsonStringify (reportAt 1000)),
              ("report:nothing", "null")],
    quota := 100000 }

/-- Two submissions of different users at the same clock reading. -/
def sameInstant : List Submission :=
  [{ form := sampleForm, now := 1700000000000, today := 1700000000000 },
   { form := { sampleForm with userName := "Ravi", description := "broken tap" },
     now := 1700000000000, today := 1700000000000 }]

/-- Two submissions at different clock readings. -/
def twoInstants : List Submission :=
  [{ form := sampleForm, now := 1000, today := 1000 },
   { form := sampleForm, now := 2000, today := 2000 }]

/-- A `localStorage` without room left: every `setItem` of a report throws. -/
def fullStore : LocalStorage := { items := [], quota := 10 }

/-- A submission of the sample form followed by three status updates of its report. -/
def sampleActions : List Action :=
  [.submit sampleForm 1700000000000 1700000000001,
   .setStatus "report_1700000000000" "in-progress",
   .setStatus "report_1700000000000" "resolved",
   .setStatus "report_1700000000000" "pending"]

mutual
theorem Json.beq_iff : ∀ a b : Json, Json.beq a b = true ↔ a = b
  | .null, b => by cases b <;> simp [Json.beq]
  | .bool a, b => by cases b <;> simp [Json.beq]
  | .num a, b => by cases b <;> simp [Json.beq]
  | .str a, b => by cases b <;> simp [Json.beq]
  | .arr a, b => by cases b <;> simp [Json.beq, Json.beqItems_iff a]
  | .obj a, b => by cases b <;> simp [Json.beq, Json.beqFields_iff a]
theorem Json.beqItems_iff : ∀ a b : List Json, Json.beqItems a b = true ↔ a = b
  | [], b => by cases b <;> simp [Json.beqItems]
  | a :: as, b => by cases b <;> simp [Json.beqItems, Json.beq_iff a, Json.beqItems_iff as]
theorem Json.beqFields_iff :
    ∀ a b : List (String × Json), Json.beqFields a b = true ↔ a = b
  | [], b => by cases b <;> simp [Json.beqFields]
  | (k, a) :: as, b => by
    cases b with
    | nil => simp [Json.beqFields]
    | cons p bs =>
      obtain ⟨l, b⟩ := p
      simp [Json.beqFields, Json.beq_iff a, Json.beqFields_iff as, and_assoc]
end

instance : DecidableEq Json := fun a b => decidable_of_iff _ (Json.beq_iff a b)

deriving instance DecidableEq for Except

instance : DecidableEq App := fun a b =>
  decidable_of_iff (a.view = b.view ∧ a.reports = b.reports ∧ a.formData = b.formData
      ∧ a.selectedReport = b.selectedReport)
    (by cases a; cases b; simp)

instance {σ : Type} [DecidableEq σ] : DecidableEq (Run σ) := fun a b =>
  decidable_of_iff (a.store = b.store ∧ a.app = b.app ∧ a.events = b.events)
    (by cases a; cases b; simp)

/-! ## Facts about strings -/

theorem startsWith_iff (s w : List Char) : startsWith s w = true ↔ w <+: s := by
  induction s generalizing w with
  | nil => cases w <;> simp [startsWith]
  | cons c s ih =>
    cases w with
    | nil => simp [startsWith]
    | cons d w =>
      simp only [startsWith, Bool.and_eq_true, beq_iff_eq, ih, List.cons_prefix_cons]
      constructor
      · rintro ⟨h1, h2⟩; exact ⟨h1.symm, h2⟩
      · rintro ⟨h1, h2⟩; exact ⟨h1.symm, h2⟩

/-- The test `includes` decides the substring relation. -/
theorem includesChars_iff (s w : List Char) : includesChars s w = true ↔ w <:+: s := by
  induction s with
  | nil =>
    simp only [includesChars, startsWith_iff, List.prefix_nil, List.infix_nil]
  | cons c s ih =>
    simp only [includesChars, Bool.or_eq_true, startsWith_iff, ih, List.infix_cons_iff]

theorem includes_iff (s w : String) : includes s w = true ↔ w.data <:+: s.data :=
  includesChars_iff _ _

theorem filter_length_pos_iff {α : Type} (p : α → Bool) (l : List α) :
    (l.filter p).length > 0 ↔ ∃ a ∈ l, p a = true := by
  rw [gt_iff_lt, List.length_pos_iff_exists_mem]
  simp [List.mem_filter]

theorem asciiLower_whiteSpace (c : Char) (h : isWhiteSpace c = true) : asciiLower c = c := by
  unfold asciiLower
  split
  · next hc =>
    exfalso
    simp only [isWhiteSpace, Bool.or_eq_true, Bool.and_eq_true, decide_eq_true_eq] at h
    omega
  · rfl

theorem jsHost_lowerFixesWhiteSpace : jsHost.LowerFixesWhiteSpace := by
  intro s hs
  show String.mk (s.data.map asciiLower) = s
  have : s.data.map asciiLower = s.data := by
    conv_rhs => rw [← List.map_id s.data]
    exact List.map_congr_left (fun c hc => asciiLower_whiteSpace c (hs c hc))
  rw [this]

/-! ## Facts about the collection -/

theorem getProp_of_ne_null (r : Json) (k : String) (h : r ≠ Json.null) :
    r.getProp k = .ok (lookupField k r.fields) := by
  cases r <;> first | exact absurd rfl h | rfl

theorem findById_mem (reportId : String) (rs : List Json) (report : Json)
    (h : findById reportId rs = .ok (some report)) :
    report ∈ rs ∧ hasId report reportId = true := by
  induction rs with
  | nil => simp [findById] at h
  | cons r rs ih =>
    unfold findById at h
    cases hr : r.getProp "id" with
    | error e => rw [hr] at h; simp at h
    | ok v =>
      rw [hr] at h
      simp only at h
      by_cases hv : strictEqString v reportId = true
      · rw [if_pos hv] at h
        have hrr : r = report := by injection h with h; injection h
        subst hrr
        refine ⟨List.mem_cons_self _ _, ?_⟩
        have hne : r ≠ Json.null := by
          rintro rfl; simp [Json.getProp] at hr
        rw [getProp_of_ne_null r "id" hne] at hr
        injection hr with hr
        rw [hasId, hr, hv]
      · rw [if_neg hv] at h
        exact ⟨List.mem_cons_of_mem _ (ih h).1, (ih h).2⟩

theorem replaceById_ok (reportId : String) (u : Json) (rs : List Json)
    (hnn : ∀ r ∈ rs, r ≠ Json.null) :
    replaceById reportId u rs = .ok (rs.map (fun r => if hasId r reportId then u else r)) := by
  induction rs with
  | nil => rfl
  | cons r rs ih =>
    unfold replaceById
    rw [getProp_of_ne_null r "id" (hnn r (List.mem_cons_self _ _)),
      ih (fun x hx => hnn x (List.mem_cons_of_mem _ hx))]
    rfl

theorem lookupField_setField_same (k : String) (v : Json) (fields : List (String × Json)) :
    lookupField k (setField k v fields) = some v := by
  induction fields with
  | nil => simp [setField, lookupField]
  | cons p rest ih =>
    obtain ⟨k', v'⟩ := p
    by_cases h : k' = k
    · simp [setField, lookupField, h]
    · simp [setField, lookupField, h, ih]

theorem lookupField_setField_other (k k' : String) (v : Json) (fields : List (String × Json))
    (h : k' ≠ k) : lookupField k' (setField k v fields) = lookupField k' fields := by
  induction fields with
  | nil => simp [setField, lookupField, h.symm]
  | cons p rest ih =>
    obtain ⟨k'', v''⟩ := p
    by_cases h2 : k'' = k
    · subst h2
      simp [setField, lookupField, h.symm]
    · by_cases h3 : k'' = k'
      · subst h3
        simp [setField, lookupField, h2]
      · simp [setField, lookupField, h2, h3, ih]

theorem statusOf_withStatus (report : Json) (t : String) :
    statusOf (withStatus report t) = some (.str t) := by
  simp [statusOf, withStatus, Json.fields, lookupField_setField_same]

theorem lookupField_withStatus (report : Json) (t k : String) (h : k ≠ "status") :
    lookupField k (withStatus report t).fields = lookupField k report.fields := by
  simp [withStatus, Json.fields, lookupField_setField_other _ _ _ _ h]

theorem hasId_withStatus (report : Json) (t reportId : String) :
    hasId (withStatus report t) reportId = hasId report reportId := by
  unfold hasId
  rw [lookupField_withStatus report t "id" (by decide)]

/-- What `updateReportStatus` does when the report is found and the write succeeds. -/
theorem updateReportStatus_found {σ : Type} (H : Host) (S : Storage σ)
    (reportId newStatus : String) (store store' : σ) (app : App) (report : Json)
    (hnn : ∀ r ∈ app.reports, r ≠ Json.null)
    (hfind : findById reportId app.reports = .ok (some report))
    (hset : S.set store ("report:" ++ reportId) (H.stringify (withStatus report newStatus))
      = .ok store') :
    updateReportStatus H S reportId newStatus store app =
      ⟨store',
       { app with
         reports := app.reports.map
           (fun r => if hasId r reportId then withStatus report newStatus else r),
         selectedReport :=
           if selectedHasId app.selectedReport reportId then some (withStatus report newStatus)
           else app.selectedReport },
       [.storageSet ("report:" ++ reportId) (H.stringify (withStatus report newStatus))]⟩ := by
  unfold updateReportStatus
  rw [hfind]
  simp only [hset, replaceById_ok reportId _ app.reports hnn]

/-! ## The classifier: high dominates, then medium, then low -/

/-- C1: a description whose lower-cased form contains a HIGH keyword as a substring is
classified `high` (with the red indicator), whatever MEDIUM keywords it contains. -/
theorem classifySeverity_high (H : Host) (d : String)
    (h : ∃ w ∈ highKeywords, w.data <:+: (H.toLowerCase d).data) :
    classifySeverity H d = { level := "high", color := "#ef4444" } := by
  have hpos : ((highKeywords.filter (fun word => includes (H.toLowerCase d) word)).length > 0) := by
    rw [filter_length_pos_iff]
    obtain ⟨w, hw, hin⟩ := h
    exact ⟨w, hw, (includes_iff _ _).2 hin⟩
  simp only [classifySeverity, hpos, if_true]

/-- C1, evaluated: the sample description of the specification, which contains two HIGH
keywords and one MEDIUM keyword. -/
theorem classifySeverity_high_witness :
    (∃ w ∈ highKeywords,
        w.data <:+: (jsHost.toLowerCase "URGENT overflow near garbage bin").data) ∧
      (∃ w ∈ mediumKeywords,
        w.data <:+: (jsHost.toLowerCase "URGENT overflow near garbage bin").data) ∧
      classifySeverity jsHost "URGENT overflow near garbage bin"
        = { level := "high", color := "#ef4444" } :=
  ⟨⟨"urgent", by decide, (includes_iff _ _).1 (by decide)⟩,
   ⟨"garbage", by decide, (includes_iff _ _).1 (by decide)⟩,
   classifySeverity_high jsHost "URGENT overflow near garbage bin"
     ⟨"urgent", by decide, (includes_iff _ _).1 (by decide)⟩⟩

/-- C2: for a description whose lower-cased form contains no HIGH keyword, the level is
`medium` when some MEDIUM keyword is a substring and `low` when none is; and when
`toLowerCase` leaves white space alone, every white-space-only description, the empty one
included, is `low`. -/
theorem classifySeverity_medium_low (H : Host) :
    (∀ d : String, (∀ w ∈ highKeywords, ¬ w.data <:+: (H.toLowerCase d).data) →
      ((∃ w ∈ mediumKeywords, w.data <:+: (H.toLowerCase d).data) →
          classifySeverity H d = { level := "medium", color := "#eab308" }) ∧
      ((∀ w ∈ mediumKeywords, ¬ w.data <:+: (H.toLowerCase d).data) →
          classifySeverity H d = { level := "low", color := "#22c55e" })) ∧
    (H.LowerFixesWhiteSpace → ∀ d : String, whitespaceOnly d →
      classifySeverity H d = { level := "low", color := "#22c55e" }) := by
  have key : ∀ d : String, (∀ w ∈ highKeywords, ¬ w.data <:+: (H.toLowerCase d).data) →
      ((∃ w ∈ mediumKeywords, w.data <:+: (H.toLowerCase d).data) →
          classifySeverity H d = { level := "medium", color := "#eab308" }) ∧
      ((∀ w ∈ mediumKeywords, ¬ w.data <:+: (H.toLowerCase d).data) →
          classifySeverity H d = { level := "low", color := "#22c55e" }) := by
    intro d hno
    have hhigh : ¬ ((highKeywords.filter
        (fun word => includes (H.toLowerCase d) word)).length > 0) := by
      rw [filter_length_pos_iff]
      rintro ⟨w, hw, hin⟩
      exact hno w hw ((includes_iff _ _).1 hin)
    constructor
    · rintro ⟨w, hw, hin⟩
      have hmed : ((mediumKeywords.filter
          (fun word => includes (H.toLowerCase d) word)).length > 0) := by
        rw [filter_length_pos_iff]
        exact ⟨w, hw, (includes_iff _ _).2 hin⟩
      simp only [classifySeverity, hhigh, hmed, if_true, if_false]
    · intro hnone
      have hmed : ¬ ((mediumKeywords.filter
          (fun word => includes (H.toLowerCase d) word)).length > 0) := by
        rw [filter_length_pos_iff]
        rintro ⟨w, hw, hin⟩
        exact hnone w hw ((includes_iff _ _).1 hin)
      simp only [classifySeverity, hhigh, hmed, if_false]
  refine ⟨key, ?_⟩
  intro hfix d hd
  have hnokw : ∀ w ∈ highKeywords ++ mediumKeywords, ¬ w.data <:+: (H.toLowerCase d).data := by
    intro w hw hin
    rw [hfix d hd] at hin
    -- the first character of a keyword is a letter, not white space
    have hall : ∀ w ∈ highKeywords ++ mediumKeywords,
        ∃ c, c ∈ w.data ∧ isWhiteSpace c = false := by decide
    obtain ⟨c, hc, hcw⟩ := hall w hw
    have := hd c (hin.subset hc)
    rw [hcw] at this
    exact Bool.noConfusion this
  exact (key d (fun w hw => hnokw w (List.mem_append_left _ hw))).2
    (fun w hw => hnokw w (List.mem_append_right _ hw))

/-- C2, evaluated on the two sample descriptions of the specification, on the empty
description and on a description of blanks. -/
theorem classifySeverity_medium_low_witness :
    classifySeverity jsHost "the bin smells bad" = { level := "medium", color := "#eab308" } ∧
    classifySeverity jsHost "nice clean street" = { level := "low", color := "#22c55e" } ∧
    classifySeverity jsHost "" = { level := "low", color := "#22c55e" } ∧
    classifySeverity jsHost " \t\n " = { level := "low", color := "#22c55e" } :=
  ⟨((classifySeverity_medium_low jsHost).1 "the bin smells bad"
      (by intro w hw; rw [← includes_iff]; revert w; decide)).1
      ⟨"smell", by decide, (includes_iff _ _).1 (by decide)⟩,
   ((classifySeverity_medium_low jsHost).1 "nice clean street"
      (by intro w hw; rw [← includes_iff]; revert w; decide)).2
      (by intro w hw; rw [← includes_iff]; revert w; decide),
   (classifySeverity_medium_low jsHost).2 jsHost_lowerFixesWhiteSpace ""
      (by intro c hc; simp at hc),
   (classifySeverity_medium_low jsHost).2 jsHost_lowerFixesWhiteSpace " \t\n "
      (by unfold whitespaceOnly; decide)⟩

/-! ## The status update has no transition rule -/

/-- C3, refuted on the sample: the report is `resolved`, and `updateReportStatus(id, 'pending')`
raises no alert, writes the report with status `pending` to the store and puts it in the
collection. -/
theorem updateReportStatus_resolved_to_pending :
    resolved.app.reports.map statusOf = [some (.str "resolved")] ∧
    (updateReportStatus jsHost fallbackStorage "report_1700000000000" "pending"
        resolved.store resolved.app).events
      = [.storageSet "report:report_1700000000000"
          (jsonStringify (withStatus sampleReport "pending"))] ∧
    (updateReportStatus jsHost fallbackStorage "report_1700000000000" "pending"
        resolved.store resolved.app).app.reports.map statusOf = [some (.str "pending")] ∧
    ((updateReportStatus jsHost fallbackStorage "report_1700000000000" "pending"
        resolved.store resolved.app).store.getItem "report:report_1700000000000").map
        (fun text => (jsonParse text).map statusOf)
      = some (some (some (.str "pending"))) := by
  decide!

/-- C3, amended: when the collection has no `null` entry and holds a report with the given id,
and the write succeeds, `updateReportStatus(id, target)` raises no alert, leaves the store as
the write made it, and replaces the entries of that id by the found report with status
`target`, whatever the status was; the entries of another id stay. -/
theorem updateReportStatus_sets_any_status {σ : Type} (H : Host) (S : Storage σ)
    (reportId newStatus : String) (store store' : σ) (app : App) (report : Json)
    (hnn : ∀ r ∈ app.reports, r ≠ Json.null)
    (hfind : findById reportId app.reports = .ok (some report))
    (hset : S.set store ("report:" ++ reportId) (H.stringify (withStatus report newStatus))
      = .ok store') :
    (updateReportStatus H S reportId newStatus store app).events
      = [.storageSet ("report:" ++ reportId) (H.stringify (withStatus report newStatus))] ∧
    (updateReportStatus H S reportId newStatus store app).store = store' ∧
    (updateReportStatus H S reportId newStatus store app).app.reports
      = app.reports.map (fun r => if hasId r reportId then withStatus report newStatus else r) ∧
    statusOf (withStatus report newStatus) = some (.str newStatus) ∧
    (∀ r ∈ app.reports, hasId r reportId = false →
      r ∈ (updateReportStatus H S reportId newStatus store app).app.reports) := by
  rw [updateReportStatus_found H S reportId newStatus store store' app report hnn hfind hset]
  refine ⟨rfl, rfl, rfl, statusOf_withStatus _ _, ?_⟩
  intro r hr hid
  simp only [List.mem_map]
  exact ⟨r, hr, by simp [hid]⟩

/-- C3, amended, on the sample: the resolved report goes back to `pending`. -/
theorem updateReportStatus_sets_any_status_witness :
    (updateReportStatus jsHost fallbackStorage "report_1700000000000" "pending"
        resolved.store resolved.app).app.reports
      = resolved.app.reports.map (fun r =>
          if hasId r "report_1700000000000"
          then withStatus (withStatus sampleReport "resolved") "pending" else r) :=
  (updateReportStatus_sets_any_status jsHost fallbackStorage "report_1700000000000" "pending"
    resolved.store created.store resolved.app (withStatus sampleReport "resolved")
    (by decide!) (by decide!) (by decide!)).2.2.1

/-! ## Submitting a report -/

/-- C4: when the name or the description is empty, or no location was captured,
`handleSubmitReport` answers with one of its two validation alerts and nothing else: no
write to the store, the store and the whole state (the collection included) as before, so
that `loadReports` afterwards gives what it gave before. -/
theorem handleSubmitReport_rejects_missing_field {σ : Type} (H : Host) (S : Storage σ)
    (now today : Nat) (store : σ) (app : App)
    (h : app.formData.userName = "" ∨ app.formData.description = ""
      ∨ app.formData.location = none) :
    ((handleSubmitReport H S now today store app).events
        = [.alert "Please fill in all required fields"] ∨
      (handleSubmitReport H S now today store app).events
        = [.alert "Please capture your location first"]) ∧
    (∀ key value, Event.storageSet key value ∉ (handleSubmitReport H S now today store app).events) ∧
    (handleSubmitReport H S now today store app).store = store ∧
    (handleSubmitReport H S now today store app).app = app ∧
    loadReports H S (handleSubmitReport H S now today store app).store
        (handleSubmitReport H S now today store app).app
      = loadReports H S store app := by
  by_cases h1 : app.formData.userName = "" ∨ app.formData.description = ""
  · have hrun : handleSubmitReport H S now today store app
        = ⟨store, app, [.alert "Please fill in all required fields"]⟩ := by
      unfold handleSubmitReport
      rw [if_pos h1]
    rw [hrun]
    exact ⟨Or.inl rfl, by intro key value; simp, rfl, rfl, rfl⟩
  · have hloc : app.formData.location = none := by
      rcases h with h | h | h
      · exact absurd (Or.inl h) h1
      · exact absurd (Or.inr h) h1
      · exact h
    have hrun : handleSubmitReport H S now today store app
        = ⟨store, app, [.alert "Please capture your location first"]⟩ := by
      unfold handleSubmitReport
      rw [if_neg h1, hloc]
    rw [hrun]
    exact ⟨Or.inr rfl, by intro key value; simp, rfl, rfl, rfl⟩

/-- C4 on the sample of the specification: an empty name, a description and a location. -/
theorem handleSubmitReport_rejects_missing_field_witness :
    (handleSubmitReport jsHost fallbackStorage 1700000000000 1700000000001 emptyStore
        { sampleApp with formData := { sampleForm with userName := "" } }).store = emptyStore ∧
    (loadReports jsHost fallbackStorage
        (handleSubmitReport jsHost fallbackStorage 1700000000000 1700000000001 emptyStore
          { sampleApp with formData := { sampleForm with userName := "" } }).store
        (handleSubmitReport jsHost fallbackStorage 1700000000000 1700000000001 emptyStore
          { sampleApp with formData := { sampleForm with userName := "" } }).app).app.reports
      = [] :=
  ⟨(handleSubmitReport_rejects_missing_field jsHost fallbackStorage 1700000000000 1700000000001
      emptyStore { sampleApp with formData := { sampleForm with userName := "" } }
      (Or.inl rfl)).2.2.1,
   by
    rw [(handleSubmitReport_rejects_missing_field jsHost fallbackStorage 1700000000000
      1700000000001 emptyStore { sampleApp with formData := { sampleForm with userName := "" } }
      (Or.inl rfl)).2.2.2.2]
    decide!⟩

/-- What `handleSubmitReport` does on a valid form when the write succeeds. -/
theorem handleSubmitReport_ok {σ : Type} (H : Host) (S : Storage σ) (now today : Nat)
    (store store' : σ) (app : App) (location : Location)
    (hname : app.formData.userName ≠ "") (hdesc : app.formData.description ≠ "")
    (hloc : app.formData.location = some location)
    (hset : S.set store ("report:" ++ newReportId now)
      (H.stringify (newReport H now today app.formData location)) = .ok store') :
    handleSubmitReport H S now today store app =
      ⟨store',
       { app with
         reports := newReport H now today app.formData location :: app.reports,
         formData := emptyForm, view := "home" },
       [.storageSet ("report:" ++ newReportId now)
          (H.stringify (newReport H now today app.formData location)),
        .alert "Report submitted successfully!"]⟩ := by
  unfold handleSubmitReport
  rw [if_neg (by rintro (h | h); exact hname h; exact hdesc h), hloc]
  simp only [hset]

/-- C5: on a valid form (name and description not empty, a location captured) and a store
whose `set` succeeds, `handleSubmitReport` writes the serialized new report under the key
`report:` followed by the report's id, and nothing else; the collection becomes the new
report followed by the previous collection; and the new report carries the name, the
description, the image and the location of the form, the level and the colour that
`classifySeverity` gives for the description, and the status `pending`. -/
theorem handleSubmitReport_creates {σ : Type} (H : Host) (S : Storage σ) (now today : Nat)
    (store store' : σ) (app : App) (location : Location)
    (hname : app.formData.userName ≠ "") (hdesc : app.formData.description ≠ "")
    (hloc : app.formData.location = some location)
    (hset : S.set store ("report:" ++ newReportId now)
      (H.stringify (newReport H now today app.formData location)) = .ok store') :
    (handleSubmitReport H S now today store app).store = store' ∧
    (handleSubmitReport H S now today store app).events
      = [.storageSet ("report:" ++ newReportId now)
          (H.stringify (newReport H now today app.formData location)),
         .alert "Report submitted successfully!"] ∧
    (handleSubmitReport H S now today store app).app.reports
      = newReport H now today app.formData location :: app.reports ∧
    (newReport H now today app.formData location).getProp "id"
      = .ok (some (.str (newReportId now))) ∧
    (newReport H now today app.formData location).getProp "userName"
      = .ok (some (.str app.formData.userName)) ∧
    (newReport H now today app.formData location).getProp "description"
      = .ok (some (.str app.formData.description)) ∧
    (newReport H now today app.formData location).getProp "image"
      = .ok (some (imageJson app.formData.image)) ∧
    (newReport H now today app.formData location).getProp "location"
      = .ok (some location.toJson) ∧
    (newReport H now today app.formData location).getProp "severity"
      = .ok (some (.str (classifySeverity H app.formData.description).level)) ∧
    (newReport H now today app.formData location).getProp "color"
      = .ok (some (.str (classifySeverity H app.formData.description).color)) ∧
    (newReport H now today app.formData location).getProp "status"
      = .ok (some (.str "pending")) := by
  rw [handleSubmitReport_ok H S now today store store' app location hname hdesc hloc hset]
  refine ⟨rfl, rfl, rfl, ?_, ?_, ?_, ?_, ?_, ?_, ?_, ?_⟩ <;>
    simp [newReport, Json.getProp, lookupField]

/-- C5 on the sample form and an empty store. -/
theorem handleSubmitReport_creates_witness :
    (handleSubmitReport jsHost fallbackStorage 1700000000000 1700000000001 emptyStore
        sampleApp).app.reports = [sampleReport] ∧
    (handleSubmitReport jsHost fallbackStorage 1700000000000 1700000000001 emptyStore
        sampleApp).store
      = { items := [("report:report_1700000000000", jsonStringify sampleReport)],
          quota := 100000 } :=
  ⟨(handleSubmitReport_creates jsHost fallbackStorage 1700000000000 1700000000001 emptyStore
      { items := [("report:report_1700000000000", jsonStringify sampleReport)], quota := 100000 }
      sampleApp sampleLocation (by decide) (by decide) rfl (by decide!)).2.2.1,
   (handleSubmitReport_creates jsHost fallbackStorage 1700000000000 1700000000001 emptyStore
      { items := [("report:report_1700000000000", jsonStringify sampleReport)], quota := 100000 }
      sampleApp sampleLocation (by decide) (by decide) rfl (by decide!)).1⟩

/-! ## Sorting by date -/

theorem dateDifference_of_ne_null (H : Host) (a b : Json) (ha : a ≠ Json.null)
    (hb : b ≠ Json.null) :
    dateDifference H a b = .ok (timeDifference (timeOf H b) (timeOf H a)) := by
  unfold dateDifference
  rw [getProp_of_ne_null b "date" hb, getProp_of_ne_null a "date" ha]
  rfl

/-- Without a `null` element the insertion does not throw and permutes. -/
theorem insertSorted_perm (H : Host) (x : Json) (ys : List Json) (hx : x ≠ Json.null)
    (hys : ∀ y ∈ ys, y ≠ Json.null) :
    ∃ zs, insertSorted (dateDifference H) x ys = .ok zs ∧ zs.Perm (x :: ys) := by
  induction ys with
  | nil => exact ⟨[x], rfl, List.Perm.refl _⟩
  | cons y ys ih =>
    obtain ⟨zs, hzs, hperm⟩ := ih (fun z hz => hys z (List.mem_cons_of_mem _ hz))
    unfold insertSorted
    rw [dateDifference_of_ne_null H x y hx (hys y (List.mem_cons_self _ _))]
    by_cases hpos : isPositive (timeDifference (timeOf H y) (timeOf H x)) = true
    · simp only [hpos, if_true, hzs]
      exact ⟨y :: zs, rfl, (hperm.cons y).trans (List.Perm.swap x y ys)⟩
    · simp only [hpos, if_false]
      exact ⟨x :: y :: ys, rfl, List.Perm.refl _⟩

/-- Without a `null` element the sort does not throw and permutes. -/
theorem sortWith_perm (H : Host) (l : List Json) (hl : ∀ r ∈ l, r ≠ Json.null) :
    ∃ sorted, sortWith (dateDifference H) l = .ok sorted ∧ sorted.Perm l := by
  induction l with
  | nil => exact ⟨[], rfl, List.Perm.refl _⟩
  | cons x xs ih =>
    obtain ⟨ys, hys, hperm⟩ := ih (fun z hz => hl z (List.mem_cons_of_mem _ hz))
    have hnn : ∀ y ∈ ys, y ≠ Json.null :=
      fun y hy => hl y (List.mem_cons_of_mem _ (hperm.subset hy))
    obtain ⟨zs, hzs, hperm2⟩ := insertSorted_perm H x ys (hl x (List.mem_cons_self _ _)) hnn
    refine ⟨zs, ?_, hperm2.trans (hperm.cons x)⟩
    unfold sortWith
    rw [hys]
    exact hzs

theorem NewerEq.trans {H : Host} {a b c : Json} (h1 : NewerEq H a b) (h2 : NewerEq H b c) :
    NewerEq H a c := by
  obtain ⟨ta, tb, ha, hb, hab⟩ := h1
  obtain ⟨tb', tc, hb', hc, hbc⟩ := h2
  rw [hb] at hb'
  injection hb' with hb'
  subst hb'
  exact ⟨ta, tc, ha, hc, le_trans hbc hab⟩

/-- Inserting an element with a valid date into a list in date order keeps the order. -/
theorem insertSorted_sorted (H : Host) (x : Json) (ys zs : List Json) (hx : x ≠ Json.null)
    (hys : ∀ y ∈ ys, y ≠ Json.null) (tx : Int) (hxt : timeOf H x = some tx)
    (hyt : ∀ y ∈ ys, ∃ t, timeOf H y = some t) (hs : ys.Pairwise (NewerEq H))
    (h : insertSorted (dateDifference H) x ys = .ok zs) : zs.Pairwise (NewerEq H) := by
  induction ys generalizing zs with
  | nil =>
    simp only [insertSorted] at h
    injection h with h
    subst h
    exact List.pairwise_singleton _ _
  | cons y ys ih =>
    obtain ⟨ty, hty⟩ := hyt y (List.mem_cons_self _ _)
    have hnn' : ∀ z ∈ ys, z ≠ Json.null := fun z hz => hys z (List.mem_cons_of_mem _ hz)
    have hyt' : ∀ z ∈ ys, ∃ t, timeOf H z = some t :=
      fun z hz => hyt z (List.mem_cons_of_mem _ hz)
    obtain ⟨hyall, hs'⟩ := List.pairwise_cons.1 hs
    unfold insertSorted at h
    rw [dateDifference_of_ne_null H x y hx (hys y (List.mem_cons_self _ _)), hty, hxt] at h
    simp only [timeDifference, isPositive, decide_eq_true_eq] at h
    by_cases hpos : 0 < ty - tx
    · rw [if_pos hpos] at h
      obtain ⟨ws, hws, hperm⟩ := insertSorted_perm H x ys hx hnn'
      rw [hws] at h
      injection h with h
      subst h
      have hsorted := ih ws hnn' hyt' hs' hws
      refine List.pairwise_cons.2 ⟨?_, hsorted⟩
      intro w hw
      rcases List.mem_cons.1 (hperm.subset hw) with hwx | hwy
      · subst hwx
        exact ⟨ty, tx, hty, hxt, by omega⟩
      · exact hyall w hwy
    · rw [if_neg hpos] at h
      injection h with h
      subst h
      have hxy : NewerEq H x y := ⟨tx, ty, hxt, hty, by omega⟩
      refine List.pairwise_cons.2 ⟨?_, hs⟩
      intro w hw
      rcases List.mem_cons.1 hw with hwy | hwys
      · subst hwy; exact hxy
      · exact hxy.trans (hyall w hwys)

/-- A list of non-null values with valid dates is sorted newest first. -/
theorem sortWith_sorted (H : Host) (l sorted : List Json) (hl : ∀ r ∈ l, r ≠ Json.null)
    (ht : ∀ r ∈ l, ∃ t, timeOf H r = some t)
    (h : sortWith (dateDifference H) l = .ok sorted) : sorted.Pairwise (NewerEq H) := by
  induction l generalizing sorted with
  | nil =>
    simp only [sortWith] at h
    injection h with h
    subst h
    exact List.Pairwise.nil
  | cons x xs ih =>
    have hl' : ∀ r ∈ xs, r ≠ Json.null := fun z hz => hl z (List.mem_cons_of_mem _ hz)
    have ht' : ∀ r ∈ xs, ∃ t, timeOf H r = some t :=
      fun z hz => ht z (List.mem_cons_of_mem _ hz)
    obtain ⟨ys, hys, hperm⟩ := sortWith_perm H xs hl'
    unfold sortWith at h
    rw [hys] at h
    obtain ⟨tx, htx⟩ := ht x (List.mem_cons_self _ _)
    exact insertSorted_sorted H x ys sorted (hl x (List.mem_cons_self _ _))
      (fun y hy => hl' y (hperm.subset hy)) tx htx (fun y hy => ht' y (hperm.subset hy))
      (ih ys hl' ht' hys) h

/-- Two lists in date order with the same elements, whose dates tell the elements apart,
are equal. -/
theorem eq_of_perm_of_newerEq (H : Host) (l l' : List Json) (hp : l.Perm l')
    (hs : l.Pairwise (NewerEq H)) (hs' : l'.Pairwise (NewerEq H))
    (hinj : ∀ a ∈ l, ∀ b ∈ l, timeOf H a = timeOf H b → a = b) : l = l' := by
  induction l generalizing l' with
  | nil => exact (List.Perm.nil_eq hp)
  | cons a l ih =>
    cases l' with
    | nil => exact absurd hp.symm (List.Perm.nil_eq · |> fun h => by simp at h)
    | cons b l' =>
      obtain ⟨ha, hsl⟩ := List.pairwise_cons.1 hs
      obtain ⟨hb, hsl'⟩ := List.pairwise_cons.1 hs'
      have hab : a = b := by
        have hbl : b ∈ a :: l := hp.symm.subset (List.mem_cons_self _ _)
        have hal : a ∈ b :: l' := hp.subset (List.mem_cons_self _ _)
        rcases List.mem_cons.1 hbl with h | h
        · exact h.symm
        · rcases List.mem_cons.1 hal with h' | h'
          · exact h'
          · obtain ⟨ta, tb, hta, htb, h1⟩ := ha b h
            obtain ⟨tb', ta', htb', hta', h2⟩ := hb a h'
            rw [hta] at hta'; rw [htb] at htb'
            injection hta' with hta'; injection htb' with htb'
            subst hta' htb'
            have : ta = tb := le_antisymm h2 h1
            exact hinj a (List.mem_cons_self _ _) b hbl (by rw [hta, htb, this])
      subst hab
      rw [ih l' (List.Perm.cons_inv hp) hsl hsl'
        (fun x hx y hy => hinj x (List.mem_cons_of_mem _ hx) y (List.mem_cons_of_mem _ hy))]

/-! ## Loading the reports -/

/-- When no `get` throws, the loop of `loadReports` collects the parsed values, in the
order of the keys. -/
theorem loadValues_ok {σ : Type} (H : Host) (S : Storage σ) (store : σ) (keys : List String)
    (hget : ∀ key ∈ keys, ∃ r, S.get store key = .ok r) :
    loadValues H S store keys = .ok (keys.filterMap (storedValue H S store)) := by
  induction keys with
  | nil => rfl
  | cons key keys ih =>
    have ih' := ih (fun k hk => hget k (List.mem_cons_of_mem _ hk))
    obtain ⟨r, hr⟩ := hget key (List.mem_cons_self _ _)
    unfold loadValues
    rw [hr, ih']
    cases r with
    | none => simp [List.filterMap_cons, storedValue, hr]
    | some text =>
      cases hp : H.parse text with
      | none => simp [List.filterMap_cons, storedValue, hr, hp]
      | some v => simp [List.filterMap_cons, storedValue, hr, hp]

/-- What `loadReports` does when the listing and every `get` succeed and no stored value
is `null`: the collection becomes a permutation of the parsed values. -/
theorem loadReports_ok {σ : Type} (H : Host) (S : Storage σ) (store : σ) (app : App)
    (keys : List String) (hlist : S.list store "report:" = .ok (some keys))
    (hget : ∀ key ∈ keys, ∃ r, S.get store key = .ok r)
    (hnn : ∀ v ∈ keys.filterMap (storedValue H S store), v ≠ Json.null) :
    ∃ sorted, sortWith (dateDifference H) (keys.filterMap (storedValue H S store)) = .ok sorted ∧
      sorted.Perm (keys.filterMap (storedValue H S store)) ∧
      loadReports H S store app = ⟨store, { app with reports := sorted }, []⟩ := by
  obtain ⟨sorted, hsorted, hperm⟩ := sortWith_perm H _ hnn
  refine ⟨sorted, hsorted, hperm, ?_⟩
  unfold loadReports
  rw [hlist]
  simp only [loadValues_ok H S store keys hget, hsorted]

/-- C6: when the listing succeeds and every listed key holds the text of a value that is
not `null` and has a valid date (as every well-formed report does), `loadReports` leaves the
store alone and sets the collection to a permutation of exactly the parsed values, in date
order, newest first, whatever the order of the keys; three reports of dates
`t1 < t2 < t3` come out as the third, the second, the first. -/
theorem loadReports_sorted_newest_first {σ : Type} (H : Host) (S : Storage σ) (store : σ)
    (app : App) (keys : List String) (hlist : S.list store "report:" = .ok (some keys))
    (hwf : ∀ key ∈ keys, ∃ text v t, S.get store key = .ok (some text) ∧
      H.parse text = some v ∧ v ≠ Json.null ∧ timeOf H v = some t) :
    (loadReports H S store app).store = store ∧
    (loadReports H S store app).app.reports.Perm (keys.filterMap (storedValue H S store)) ∧
    (loadReports H S store app).app.reports.length = keys.length ∧
    (loadReports H S store app).app.reports.Pairwise (NewerEq H) ∧
    (∀ v1 v2 v3 t1 t2 t3, (keys.filterMap (storedValue H S store)).Perm [v1, v2, v3] →
      timeOf H v1 = some t1 → timeOf H v2 = some t2 → timeOf H v3 = some t3 →
      t1 < t2 → t2 < t3 → (loadReports H S store app).app.reports = [v3, v2, v1]) := by
  have hget : ∀ key ∈ keys, ∃ r, S.get store key = .ok r := by
    intro key hkey
    obtain ⟨text, _, _, h, _⟩ := hwf key hkey
    exact ⟨some text, h⟩
  have hval : ∀ v ∈ keys.filterMap (storedValue H S store),
      v ≠ Json.null ∧ ∃ t, timeOf H v = some t := by
    intro v hv
    obtain ⟨key, hkey, hkv⟩ := List.mem_filterMap.1 hv
    obtain ⟨text, w, t, h1, h2, h3, h4⟩ := hwf key hkey
    simp only [storedValue, h1, h2] at hkv
    injection hkv with hkv
    subst hkv
    exact ⟨h3, t, h4⟩
  have hlen : (keys.filterMap (storedValue H S store)).length = keys.length := by
    have : keys.filterMap (storedValue H S store)
        = keys.map (fun key => (storedValue H S store key).getD Json.null) := by
      clear hlist hget hval
      induction keys with
      | nil => rfl
      | cons key keys ih =>
        obtain ⟨text, w, t, h1, h2, _, _⟩ := hwf key (List.mem_cons_self _ _)
        have hs : storedValue H S store key = some w := by simp [storedValue, h1, h2]
        rw [List.filterMap_cons, hs, List.map_cons, hs,
          ih (fun k hk => hwf k (List.mem_cons_of_mem _ hk))]
        rfl
    rw [this, List.length_map]
  obtain ⟨sorted, hsorted, hperm, hrun⟩ :=
    loadReports_ok H S store app keys hlist hget (fun v hv => (hval v hv).1)
  have hpair : sorted.Pairwise (NewerEq H) :=
    sortWith_sorted H _ sorted (fun v hv => (hval v hv).1) (fun v hv => (hval v hv).2) hsorted
  rw [hrun]
  refine ⟨rfl, hperm, by rw [← hlen]; exact hperm.length_eq, hpair, ?_⟩
  intro v1 v2 v3 t1 t2 t3 hp h1 h2 h3 h12 h23
  have hs3 : [v3, v2, v1].Pairwise (NewerEq H) := by
    refine List.pairwise_cons.2 ⟨?_, List.pairwise_cons.2 ⟨?_, List.pairwise_singleton _ _⟩⟩
    · intro w hw
      simp only [List.mem_cons, List.mem_singleton, List.not_mem_nil, or_false] at hw
      rcases hw with rfl | rfl
      · exact ⟨t3, t2, h3, h2, le_of_lt h23⟩
      · exact ⟨t3, t1, h3, h1, le_of_lt (lt_trans h12 h23)⟩
    · intro w hw
      simp only [List.mem_singleton] at hw
      subst hw
      exact ⟨t2, t1, h2, h1, le_of_lt h12⟩
  have hp3 : [v3, v2, v1].Perm [v1, v2, v3] := by
    exact (List.reverse_perm [v1, v2, v3])
  show sorted = [v3, v2, v1]
  symm
  apply eq_of_perm_of_newerEq H _ _ (hp3.trans (hp.symm.trans hperm.symm)) hs3 hpair
  intro a ha b hb hab
  simp only [List.mem_cons, List.mem_singleton, List.not_mem_nil, or_false] at ha hb
  rcases ha with rfl | rfl | rfl <;> rcases hb with rfl | rfl | rfl <;>
    first
    | rfl
    | (exfalso
       simp only [h1, h2, h3, Option.some.injEq] at hab
       omega)

/-- C6 on the store of three reports listed out of order: the collection comes out as the
reports of the readings 3000, 2000, 1000. -/
theorem loadReports_sorted_newest_first_witness :
    (loadReports jsHost fallbackStorage shuffledStore sampleApp).app.reports
      = [reportAt 3000, reportAt 2000, reportAt 1000] :=
  (loadReports_sorted_newest_first jsHost fallbackStorage shuffledStore sampleApp
    ["report:report_2000", "report:report_3000", "report:report_1000"] (by decide!)
    (by
      intro key hkey
      simp only [List.mem_cons, List.mem_singleton, List.not_mem_nil, or_false] at hkey
      rcases hkey with rfl | rfl | rfl
      · exact ⟨jsonStringify (reportAt 2000), reportAt 2000, 2000,
          by decide!, by decide!, by decide!, by decide!⟩
      · exact ⟨jsonStringify (reportAt 3000), reportAt 3000, 3000,
          by decide!, by decide!, by decide!, by decide!⟩
      · exact ⟨jsonStringify (reportAt 1000), reportAt 1000, 1000,
          by decide!, by decide!, by decide!, by decide!⟩)).2.2.2.2
    (reportAt 1000) (reportAt 2000) (reportAt 3000) 1000 2000 3000
    (by
      have h : ["report:report_2000", "report:report_3000", "report:report_1000"].filterMap
          (storedValue jsHost fallbackStorage shuffledStore)
          = [reportAt 2000, reportAt 3000, reportAt 1000] := by decide!
      rw [h]
      exact (List.perm_append_comm :
        ([reportAt 2000, reportAt 3000] ++ [reportAt 1000]).Perm
          ([reportAt 1000] ++ [reportAt 2000, reportAt 3000])))
    (by decide!) (by decide!) (by decide!) (by decide) (by decide)

/-- C7, refuted on a store with one report, the texts `5` and of an empty object, and a text
that is not JSON: only the last is skipped; the number and the object without fields, which
are no reports, are in the collection. -/
theorem loadReports_keeps_non_reports :
    (loadReports jsHost fallbackStorage mixedStore sampleApp).app.reports
      = [reportAt 1000, .num ⟨5, 0⟩, .obj []] ∧
    (Json.num ⟨5, 0⟩).isObject = false ∧
    lookupField "id" (Json.obj []).fields = none := by
  decide!

/-- The text `null` next to a report: the comparator of the sort throws on it, the outer
`catch` logs, and the collection is not set at all. -/
theorem loadReports_null_aborts :
    loadReports jsHost fallbackStorage nullStore sampleApp
      = ⟨nullStore, sampleApp, [.consoleLog "No existing reports found"]⟩ := by
  decide!

/-- C7, amended: when the listing and every `get` succeed and no stored text parses to
`null`, `loadReports` logs nothing and sets the collection to a permutation of the parsed
values of exactly the keys whose text `JSON.parse` accepts, reports or not; a text that
`JSON.parse` rejects is skipped.  When one value only parses, the collection is that value. -/
theorem loadReports_keeps_what_parses {σ : Type} (H : Host) (S : Storage σ) (store : σ)
    (app : App) (keys : List String) (hlist : S.list store "report:" = .ok (some keys))
    (hget : ∀ key ∈ keys, ∃ r, S.get store key = .ok r)
    (hnn : ∀ v ∈ keys.filterMap (storedValue H S store), v ≠ Json.null) :
    (loadReports H S store app).events = [] ∧
    (loadReports H S store app).store = store ∧
    (loadReports H S store app).app.reports.Perm (keys.filterMap (storedValue H S store)) ∧
    (∀ v, (∃ key ∈ keys, ∃ text, S.get store key = .ok (some text) ∧ H.parse text = some v) ↔
      v ∈ (loadReports H S store app).app.reports) ∧
    (∀ v, keys.filterMap (storedValue H S store) = [v] →
      (loadReports H S store app).app.reports = [v]) := by
  obtain ⟨sorted, _, hperm, hrun⟩ := loadReports_ok H S store app keys hlist hget hnn
  rw [hrun]
  refine ⟨rfl, rfl, hperm, ?_, ?_⟩
  · intro v
    show _ ↔ v ∈ sorted
    rw [hperm.mem_iff, List.mem_filterMap]
    constructor
    · rintro ⟨key, hkey, text, h1, h2⟩
      exact ⟨key, hkey, by simp [storedValue, h1, h2]⟩
    · rintro ⟨key, hkey, hv⟩
      refine ⟨key, hkey, ?_⟩
      obtain ⟨r, hr⟩ := hget key hkey
      cases r with
      | none => simp [storedValue, hr] at hv
      | some text => exact ⟨text, hr, by simpa [storedValue, hr] using hv⟩
  · intro v hv
    show sorted = [v]
    rw [hv] at hperm
    exact List.perm_singleton.1 hperm

/-- C7, amended, on the store with one report and one text that is not JSON. -/
theorem loadReports_keeps_what_parses_witness :
    (loadReports jsHost fallbackStorage corruptedStore sampleApp).app.reports
      = [reportAt 1000] :=
  (loadReports_keeps_what_parses jsHost fallbackStorage corruptedStore sampleApp
    ["report:broken", "report:report_1000"] (by decide!)
    (by
      intro key hkey
      exact ⟨corruptedStore.getItem key, rfl⟩)
    (by decide!)).2.2.2.2 (reportAt 1000) (by decide!)

/-! ## Submitting, then loading -/

/-- Whatever the comparator, an insertion that does not throw permutes. -/
theorem insertSorted_perm_of_ok (cmp : Json → Json → Except JsError (Option Int)) (x : Json)
    (ys zs : List Json) (h : insertSorted cmp x ys = .ok zs) : zs.Perm (x :: ys) := by
  induction ys generalizing zs with
  | nil =>
    simp only [insertSorted] at h
    injection h with h
    subst h
    exact List.Perm.refl _
  | cons y ys ih =>
    unfold insertSorted at h
    cases hc : cmp x y with
    | error e => rw [hc] at h; simp at h
    | ok r =>
      rw [hc] at h
      simp only at h
      by_cases hpos : isPositive r = true
      · rw [if_pos hpos] at h
        cases hi : insertSorted cmp x ys with
        | error e => rw [hi] at h; simp at h
        | ok ws =>
          rw [hi] at h
          injection h with h
          subst h
          exact ((ih ws hi).cons y).trans (List.Perm.swap x y ys)
      · rw [if_neg hpos] at h
        injection h with h
        subst h
        exact List.Perm.refl _

/-- Whatever the comparator, a sort that does not throw permutes. -/
theorem sortWith_perm_of_ok (cmp : Json → Json → Except JsError (Option Int))
    (l sorted : List Json) (h : sortWith cmp l = .ok sorted) : sorted.Perm l := by
  induction l generalizing sorted with
  | nil =>
    simp only [sortWith] at h
    injection h with h
    subst h
    exact List.Perm.refl _
  | cons x xs ih =>
    unfold sortWith at h
    cases hs : sortWith cmp xs with
    | error e => rw [hs] at h; simp at h
    | ok ys =>
      rw [hs] at h
      exact (insertSorted_perm_of_ok cmp x ys sorted h).trans ((ih ys hs).cons x)

/-- A value that parses under a listed key is among the loaded values. -/
theorem mem_loadValues {σ : Type} (H : Host) (S : Storage σ) (store : σ) (keys : List String)
    (values : List Json) (h : loadValues H S store keys = .ok values) (key text : String)
    (v : Json) (hkey : key ∈ keys) (hget : S.get store key = .ok (some text))
    (hparse : H.parse text = some v) : v ∈ values := by
  induction keys generalizing values with
  | nil => simp at hkey
  | cons k keys ih =>
    unfold loadValues at h
    cases hk : S.get store k with
    | error e => rw [hk] at h; simp at h
    | ok r =>
      rw [hk] at h
      cases r with
      | none =>
        simp only at h
        rcases List.mem_cons.1 hkey with rfl | hmem
        · rw [hget] at hk; simp at hk
        · exact ih values h hmem
      | some t =>
        simp only at h
        cases hp : H.parse t with
        | none =>
          rw [hp] at h
          simp only at h
          rcases List.mem_cons.1 hkey with rfl | hmem
          · rw [hget] at hk
            injection hk with hk
            injection hk with hk
            subst hk
            rw [hparse] at hp
            simp at hp
          · exact ih values h hmem
        | some w =>
          rw [hp] at h
          simp only at h
          cases hrest : loadValues H S store keys with
          | error e => rw [hrest] at h; simp at h
          | ok vs =>
            rw [hrest] at h
            injection h with h
            subst h
            rcases List.mem_cons.1 hkey with rfl | hmem
            · rw [hget] at hk
              injection hk with hk
              injection hk with hk
              subst hk
              rw [hparse] at hp
              injection hp with hp
              subst hp
              exact List.mem_cons_self _ _
            · exact List.mem_cons_of_mem _ (ih vs hrest hmem)

/-- After `loadReports`, an entry of the collection that is also stored, listed and parsed
back is in the collection. -/
theorem mem_loadReports {σ : Type} (H : Host) (S : Storage σ) (store : σ) (app : App)
    (key text : String) (v : Json) (hmem : v ∈ app.reports)
    (hlisted : ∀ keys, S.list store "report:" = .ok (some keys) → key ∈ keys)
    (hget : S.get store key = .ok (some text)) (hparse : H.parse text = some v) :
    v ∈ (loadReports H S store app).app.reports := by
  unfold loadReports
  cases hl : S.list store "report:" with
  | error e => exact hmem
  | ok r =>
    cases r with
    | none => exact hmem
    | some keys =>
      simp only
      cases hv : loadValues H S store keys with
      | error e => exact hmem
      | ok values =>
        simp only
        cases hs : sortWith (dateDifference H) values with
        | error e => exact hmem
        | ok sorted =>
          exact (sortWith_perm_of_ok _ values sorted hs).symm.subset
            (mem_loadValues H S store keys values hv key text v (hlisted keys hl) hget hparse)

/-- C8: after a successful `handleSubmitReport`, when the store lists the key just written
and gives back the text just written, and `JSON.parse` undoes `JSON.stringify` on the new
report, the collection that `loadReports` leaves contains the new report: the name, the
description, the image and the location of the form, with the id, the level, the colour, the
date and the status `pending` given at creation.  The same holds for a `loadReports` that
starts from an empty collection, when the listing and every `get` succeed and no stored value
is `null`. -/
theorem submit_then_load_contains_report {σ : Type} (H : Host) (S : Storage σ)
    (now today : Nat) (store store' : σ) (app : App) (location : Location)
    (hname : app.formData.userName ≠ "") (hdesc : app.formData.description ≠ "")
    (hloc : app.formData.location = some location)
    (hset : S.set store ("report:" ++ newReportId now)
      (H.stringify (newReport H now today app.formData location)) = .ok store')
    (hcodec : H.parse (H.stringify (newReport H now today app.formData location))
      = some (newReport H now today app.formData location))
    (hlisted : ∀ keys, S.list store' "report:" = .ok (some keys) →
      ("report:" ++ newReportId now) ∈ keys)
    (hheld : S.get store' ("report:" ++ newReportId now)
      = .ok (some (H.stringify (newReport H now today app.formData location)))) :
    newReport H now today app.formData location ∈
      (loadReports H S (handleSubmitReport H S now today store app).store
        (handleSubmitReport H S now today store app).app).app.reports ∧
    (∀ keys, S.list store' "report:" = .ok (some keys) →
      (∀ key ∈ keys, ∃ r, S.get store' key = .ok r) →
      (∀ v ∈ keys.filterMap (storedValue H S store'), v ≠ Json.null) →
      newReport H now today app.formData location ∈
        (loadReports H S (handleSubmitReport H S now today store app).store
          { (handleSubmitReport H S now today store app).app with reports := [] }).app.reports) ∧
    newReport H now today app.formData location
      = .obj [("id", .str (newReportId now)),
              ("userName", .str app.formData.userName),
              ("description", .str app.formData.description),
              ("image", imageJson app.formData.image),
              ("location", location.toJson),
              ("severity", .str (classifySeverity H app.formData.description).level),
              ("color", .str (classifySeverity H app.formData.description).color),
              ("date", .str (H.toISOString today)),
              ("status", .str "pending")] := by
  rw [handleSubmitReport_ok H S now today store store' app location hname hdesc hloc hset]
  refine ⟨?_, ?_, rfl⟩
  · exact mem_loadReports H S store' _ _ _ _ (List.mem_cons_self _ _) hlisted hheld hcodec
  · intro keys hlist hget hnn
    obtain ⟨sorted, _, hperm, hrun⟩ := loadReports_ok H S store'
      { app with
        reports := [], formData := emptyForm, view := "home" } keys hlist hget hnn
    simp only at hrun ⊢
    rw [hrun]
    show _ ∈ sorted
    rw [hperm.mem_iff, List.mem_filterMap]
    exact ⟨_, hlisted keys hlist, by simp [storedValue, hheld, hcodec]⟩

/-- C8 on the sample: the form is submitted to the empty store, and a `loadReports` from an
empty collection gives the report back. -/
theorem submit_then_load_contains_report_witness :
    sampleReport ∈
      (loadReports jsHost fallbackStorage
        (handleSubmitReport jsHost fallbackStorage 1700000000000 1700000000001 emptyStore
          sampleApp).store
        { (handleSubmitReport jsHost fallbackStorage 1700000000000 1700000000001 emptyStore
          sampleApp).app with reports := [] }).app.reports :=
  (submit_then_load_contains_report jsHost fallbackStorage 1700000000000 1700000000001
    emptyStore created.store sampleApp sampleLocation (by decide) (by decide) rfl
    (by decide!) (by decide!)
    (by
      intro keys hkeys
      have h : fallbackStorage.list created.store "report:"
          = .ok (some ["report:report_1700000000000"]) := by decide!
      rw [h] at hkeys
      injection hkeys with hkeys
      injection hkeys with hkeys
      subst hkeys
      decide)
    (by decide!)).2.1 ["report:report_1700000000000"] (by decide!)
    (by
      intro key hkey
      exact ⟨created.store.getItem key, rfl⟩)
    (by decide!)

/-! ## The status update, repeated -/

theorem setField_setField (k : String) (v : Json) (fields : List (String × Json)) :
    setField k v (setField k v fields) = setField k v fields := by
  induction fields with
  | nil => simp [setField]
  | cons p rest ih =>
    obtain ⟨k', v'⟩ := p
    by_cases h : k' = k
    · simp [setField, h]
    · simp [setField, h, ih]

theorem setField_of_lookup (k : String) (v : Json) (fields : List (String × Json))
    (h : lookupField k fields = some v) : setField k v fields = fields := by
  induction fields with
  | nil => simp [lookupField] at h
  | cons p rest ih =>
    obtain ⟨k', v'⟩ := p
    by_cases hk : k' = k
    · subst hk
      simp only [lookupField, if_true] at h
      injection h with h
      subst h
      simp [setField]
    · simp only [lookupField, if_neg hk] at h
      simp [setField, hk, ih h]

theorem withStatus_withStatus (report : Json) (t : String) :
    withStatus (withStatus report t) t = withStatus report t := by
  simp [withStatus, Json.fields, setField_setField]

/-- An entry that has an id is an object. -/
theorem eq_obj_of_hasId (r : Json) (reportId : String) (h : hasId r reportId = true) :
    r = .obj r.fields := by
  cases r <;> first | rfl | simp [hasId, Json.fields, lookupField, strictEqString] at h

theorem withStatus_of_status (report : Json) (t reportId : String)
    (hid : hasId report reportId = true) (hstatus : statusOf report = some (.str t)) :
    withStatus report t = report := by
  rw [withStatus, setField_of_lookup "status" (.str t) report.fields hstatus]
  exact (eq_obj_of_hasId report reportId hid).symm

/-- After the replacement, `find` meets the updated report. -/
theorem findById_map_replace (reportId : String) (u : Json) (rs : List Json) (report : Json)
    (hfind : findById reportId rs = .ok (some report)) (hu : hasId u reportId = true) :
    findById reportId (rs.map (fun r => if hasId r reportId then u else r))
      = .ok (some u) := by
  have hune : u ≠ Json.null := by
    rintro rfl; simp [hasId, Json.fields, lookupField, strictEqString] at hu
  induction rs with
  | nil => simp [findById] at hfind
  | cons r rs ih =>
    unfold findById at hfind
    cases hr : r.getProp "id" with
    | error e => rw [hr] at hfind; simp at hfind
    | ok v =>
      rw [hr] at hfind
      simp only at hfind
      have hrne : r ≠ Json.null := by
        rintro rfl; simp [Json.getProp] at hr
      rw [getProp_of_ne_null r "id" hrne] at hr
      injection hr with hr
      by_cases hv : strictEqString v reportId = true
      · have hrid : hasId r reportId = true := by rw [hasId, hr, hv]
        simp only [List.map_cons, hrid, if_true]
        unfold findById
        rw [getProp_of_ne_null u "id" hune]
        have : strictEqString (lookupField "id" u.fields) reportId = true := hu
        simp only [this, if_true]
      · rw [if_neg hv] at hfind
        have hrid : hasId r reportId = false := by
          rw [hasId, hr]; simpa using hv
        simp only [List.map_cons, hrid, Bool.false_eq_true, if_false]
        unfold findById
        rw [getProp_of_ne_null r "id" hrne, hr]
        simp only [hv, if_false]
        exact ih hfind

theorem selectedHasId_some (u : Json) (reportId : String) (hu : hasId u reportId = true) :
    selectedHasId (some u) reportId = true := by
  have hobj := eq_obj_of_hasId u reportId hu
  rw [hobj]
  rw [hobj] at hu
  simpa [selectedHasId, Json.getProp, hasId, Json.fields] using hu

/-- C9: for a collection without `null` entries that holds a report with the given id, and
a store on which the write succeeds and, repeated, succeeds again without changing the
store, a second `updateReportStatus(id, t)` (in particular with `t = 'resolved'`) raises no
alert either and leaves the store and the whole state as the first call left them.  And when
`t` is already the status of the report, the report is rewritten as it is: the call raises no
alert, the collection is unchanged when no other entry has that id, and the store is
unchanged when writing that text under that key does not change it. -/
theorem updateReportStatus_idempotent {σ : Type} (H : Host) (S : Storage σ)
    (reportId t : String) (store : σ) (app : App) (report : Json)
    (hnn : ∀ r ∈ app.reports, r ≠ Json.null)
    (hfind : findById reportId app.reports = .ok (some report)) :
    (∀ store1, S.set store ("report:" ++ reportId) (H.stringify (withStatus report t))
        = .ok store1 →
      S.set store1 ("report:" ++ reportId) (H.stringify (withStatus report t)) = .ok store1 →
      (updateReportStatus H S reportId t store app).events
        = [.storageSet ("report:" ++ reportId) (H.stringify (withStatus report t))] ∧
      (updateReportStatus H S reportId t (updateReportStatus H S reportId t store app).store
          (updateReportStatus H S reportId t store app).app).events
        = [.storageSet ("report:" ++ reportId) (H.stringify (withStatus report t))] ∧
      (updateReportStatus H S reportId t (updateReportStatus H S reportId t store app).store
          (updateReportStatus H S reportId t store app).app).store
        = (updateReportStatus H S reportId t store app).store ∧
      (updateReportStatus H S reportId t (updateReportStatus H S reportId t store app).store
          (updateReportStatus H S reportId t store app).app).app
        = (updateReportStatus H S reportId t store app).app) ∧
    (statusOf report = some (.str t) →
      S.set store ("report:" ++ reportId) (H.stringify report) = .ok store →
      (updateReportStatus H S reportId t store app).events
        = [.storageSet ("report:" ++ reportId) (H.stringify report)] ∧
      (updateReportStatus H S reportId t store app).store = store ∧
      ((∀ r ∈ app.reports, hasId r reportId = true → r = report) →
        (updateReportStatus H S reportId t store app).app.reports = app.reports)) := by
  have hid : hasId report reportId = true := (findById_mem reportId app.reports report hfind).2
  have hidu : hasId (withStatus report t) reportId = true := by
    rw [hasId_withStatus]; exact hid
  constructor
  · intro store1 hset hagain
    rw [updateReportStatus_found H S reportId t store store1 app report hnn hfind hset]
    have hnn1 : ∀ r ∈ app.reports.map
        (fun r => if hasId r reportId then withStatus report t else r), r ≠ Json.null := by
      intro r hr
      obtain ⟨r0, hr0, rfl⟩ := List.mem_map.1 hr
      by_cases h0 : hasId r0 reportId = true
      · simp only [h0, if_true]
        simp [withStatus]
      · simp only [h0]
        exact hnn r0 hr0
    have hfind1 := findById_map_replace reportId (withStatus report t) app.reports report
      hfind hidu
    have hset1 : S.set store1 ("report:" ++ reportId)
        (H.stringify (withStatus (withStatus report t) t)) = .ok store1 := by
      rw [withStatus_withStatus]; exact hagain
    rw [updateReportStatus_found H S reportId t store1 store1 _ (withStatus report t) hnn1
      hfind1 hset1]
    simp only [withStatus_withStatus]
    refine ⟨trivial, trivial, trivial, ?_⟩
    have hmap : (app.reports.map
        (fun r => if hasId r reportId then withStatus report t else r)).map
          (fun r => if hasId r reportId then withStatus report t else r)
        = app.reports.map (fun r => if hasId r reportId then withStatus report t else r) := by
      rw [List.map_map]
      apply List.map_congr_left
      intro r _
      by_cases h0 : hasId r reportId = true
      · simp [h0, hidu]
      · simp [h0]
    have hsel : (if selectedHasId
          (if selectedHasId app.selectedReport reportId then some (withStatus report t)
            else app.selectedReport) reportId
        then some (withStatus report t)
        else (if selectedHasId app.selectedReport reportId then some (withStatus report t)
            else app.selectedReport))
        = (if selectedHasId app.selectedReport reportId then some (withStatus report t)
            else app.selectedReport) := by
      by_cases h0 : selectedHasId app.selectedReport reportId = true
      · simp [h0, selectedHasId_some _ _ hidu]
      · simp [h0]
    simp only [hmap, hsel]
  · intro hstatus hsame
    have hw : withStatus report t = report := withStatus_of_status report t reportId hid hstatus
    have hset : S.set store ("report:" ++ reportId) (H.stringify (withStatus report t))
        = .ok store := by rw [hw]; exact hsame
    rw [updateReportStatus_found H S reportId t store store app report hnn hfind hset, hw]
    refine ⟨rfl, rfl, ?_⟩
    intro hunique
    show app.reports.map (fun r => if hasId r reportId then report else r) = app.reports
    conv_rhs => rw [← List.map_id app.reports]
    apply List.map_congr_left
    intro r hr
    by_cases h0 : hasId r reportId = true
    · simp [h0, hunique r hr h0]
    · simp [h0]

/-- C9 on the sample: the report is marked resolved twice, and the second call changes
neither the store nor the state. -/
theorem updateReportStatus_idempotent_witness :
    (updateReportStatus jsHost fallbackStorage "report_1700000000000" "resolved"
        (updateReportStatus jsHost fallbackStorage "report_1700000000000" "resolved"
          created.store created.app).store
        (updateReportStatus jsHost fallbackStorage "report_1700000000000" "resolved"
          created.store created.app).app).store
      = (updateReportStatus jsHost fallbackStorage "report_1700000000000" "resolved"
          created.store created.app).store ∧
    (updateReportStatus jsHost fallbackStorage "report_1700000000000" "resolved"
        (updateReportStatus jsHost fallbackStorage "report_1700000000000" "resolved"
          created.store created.app).store
        (updateReportStatus jsHost fallbackStorage "report_1700000000000" "resolved"
          created.store created.app).app).app
      = (updateReportStatus jsHost fallbackStorage "report_1700000000000" "resolved"
          created.store created.app).app :=
  ((updateReportStatus_idempotent jsHost fallbackStorage "report_1700000000000" "resolved"
    created.store created.app sampleReport (by decide!) (by decide!)).1 resolved.store
    (by decide!) (by decide!)).2.2

/-! ## The ids of the collection -/

theorem toNat_digit (k : Nat) (hk : k < 10) : (Char.ofNat (48 + k)).toNat = 48 + k := by
  interval_cases k <;> rfl

theorem decodeDigits_natDigitsAux (fuel n : Nat) (acc : List Char) (h : n < fuel) :
    decodeDigits 0 (natDigitsAux fuel n acc) = decodeDigits n acc := by
  induction fuel generalizing n acc with
  | zero => omega
  | succ fuel ih =>
    unfold natDigitsAux
    by_cases hn : n / 10 = 0
    · rw [if_pos hn]
      have hlt : n < 10 := by omega
      simp only [decodeDigits, List.foldl_cons, toNat_digit (n % 10) (Nat.mod_lt _ (by omega))]
      congr 1
      omega
    · rw [if_neg hn, ih (n / 10) _ (by omega)]
      simp only [decodeDigits, List.foldl_cons, toNat_digit (n % 10) (Nat.mod_lt _ (by omega))]
      congr 1
      omega

/-- The numeral of a number denotes that number. -/
theorem decodeDigits_natDigits (n : Nat) : decodeDigits 0 (natDigits n) = n := by
  rw [natDigits, decodeDigits_natDigitsAux (n + 1) n [] (by omega)]
  rfl

/-- Different clock readings give different ids. -/
theorem newReportId_injective (m n : Nat) (h : newReportId m = newReportId n) : m = n := by
  have hdata : (newReportId m).data = (newReportId n).data := by rw [h]
  simp only [newReportId, String.data_append] at hdata
  have hd : natDigits m = natDigits n := List.append_cancel_left hdata
  rw [← decodeDigits_natDigits m, ← decodeDigits_natDigits n, hd]

/-- A submission leaves the collection as it was or puts one report, whose id is made of
the clock reading, in front of it. -/
theorem handleSubmitReport_reports {σ : Type} (H : Host) (S : Storage σ) (now today : Nat)
    (store : σ) (app : App) :
    (handleSubmitReport H S now today store app).app.reports = app.reports ∨
    ∃ r, idOf r = some (.str (newReportId now)) ∧
      (handleSubmitReport H S now today store app).app.reports = r :: app.reports := by
  unfold handleSubmitReport
  split
  · exact Or.inl rfl
  · split
    · exact Or.inl rfl
    · next location _ =>
      simp only
      split
      · exact Or.inr ⟨newReport H now today app.formData location, rfl, rfl⟩
      · exact Or.inl rfl

/-- C10, refuted: two users submit at the same clock reading to an empty collection and an
empty store; both submissions succeed, the two reports of the collection have the same id,
and the store holds one entry, the second report written over the first. -/
theorem submitAll_same_instant_same_id :
    (submitAll jsHost fallbackStorage sameInstant emptyStore sampleApp).2.reports.map idOf
      = [some (.str "report_1700000000000"), some (.str "report_1700000000000")] ∧
    ¬ ((submitAll jsHost fallbackStorage sameInstant emptyStore sampleApp).2.reports.map
        idOf).Nodup ∧
    (submitAll jsHost fallbackStorage sameInstant emptyStore sampleApp).2.reports.map
        (fun r => lookupField "userName" r.fields)
      = [some (.str "Ravi"), some (.str "Asha")] ∧
    (submitAll jsHost fallbackStorage sameInstant emptyStore sampleApp).1.items.map
        (fun kv => kv.1)
      = ["report:report_1700000000000"] := by
  decide!

/-- C10, amended: the id of a report is `report_` followed by the decimal numeral of the
reading of `Date.now()`, and different readings give different ids; so from a collection
with pairwise distinct ids, any sequence of submissions whose readings are pairwise distinct
and give ids not yet in the collection leaves the ids of the collection pairwise distinct. -/
theorem submitAll_ids_distinct {σ : Type} (H : Host) (S : Storage σ)
    (subs : List Submission) (store : σ) (app : App)
    (hdistinct : (app.reports.map idOf).Nodup)
    (hnows : (subs.map (fun s => s.now)).Nodup)
    (hfresh : ∀ s ∈ subs, some (Json.str (newReportId s.now)) ∉ app.reports.map idOf) :
    ((submitAll H S subs store app).2.reports.map idOf).Nodup ∧
    (∀ m n : Nat, newReportId m = newReportId n → m = n) := by
  refine ⟨?_, newReportId_injective⟩
  induction subs generalizing store app with
  | nil => exact hdistinct
  | cons s rest ih =>
    simp only [List.map_cons, List.nodup_cons] at hnows
    unfold submitAll
    apply ih
    · rcases handleSubmitReport_reports H S s.now s.today store { app with formData := s.form }
        with h | ⟨r, hr, h⟩
      · rw [h]; exact hdistinct
      · rw [h, List.map_cons, hr, List.nodup_cons]
        exact ⟨hfresh s (List.mem_cons_self _ _), hdistinct⟩
    · exact hnows.2
    · intro s' hs'
      rcases handleSubmitReport_reports H S s.now s.today store { app with formData := s.form }
        with h | ⟨r, hr, h⟩
      · rw [h]; exact hfresh s' (List.mem_cons_of_mem _ hs')
      · rw [h, List.map_cons, hr, List.mem_cons]
        rintro (heq | hmem)
        · have hid : newReportId s'.now = newReportId s.now := by
            injection heq with heq
            injection heq
          have : s'.now = s.now := newReportId_injective _ _ hid
          exact hnows.1 (List.mem_map.2 ⟨s', hs', this⟩)
        · exact hfresh s' (List.mem_cons_of_mem _ hs') hmem

/-- C10, amended, on two submissions at the readings 1000 and 2000. -/
theorem submitAll_ids_distinct_witness :
    ((submitAll jsHost fallbackStorage twoInstants emptyStore sampleApp).2.reports.map
      idOf).Nodup :=
  (submitAll_ids_distinct jsHost fallbackStorage twoInstants emptyStore sampleApp
    (by decide) (by decide) (by decide!)).1

/-! ## The adapter of lines 5-27 honours the contract the theorems assume -/

theorem find_putItem (key value : String) (items : List (String × String)) :
    ((putItem key value items).find? (fun kv => kv.1 = key)).map (fun kv => kv.2)
      = some value := by
  induction items with
  | nil => simp [putItem]
  | cons p rest ih =>
    obtain ⟨k, v⟩ := p
    by_cases h : k = key
    · simp [putItem, h]
    · simp [putItem, h, List.find?_cons, ih]

theorem putItem_putItem (key value : String) (items : List (String × String)) :
    putItem key value (putItem key value items) = putItem key value items := by
  induction items with
  | nil => simp [putItem]
  | cons p rest ih =>
    obtain ⟨k, v⟩ := p
    by_cases h : k = key
    · simp [putItem, h]
    · simp [putItem, h, ih]

theorem mem_keys_putItem (key value : String) (items : List (String × String)) :
    key ∈ (putItem key value items).map (fun kv => kv.1) := by
  induction items with
  | nil => simp [putItem]
  | cons p rest ih =>
    obtain ⟨k, v⟩ := p
    by_cases h : k = key
    · simp [putItem, h]
    · simp only [putItem, if_neg h, List.map_cons, List.mem_cons]
      exact Or.inr ih

/-- After a successful `set`, `get` of the key answers the value written. -/
theorem fallbackStorage_get_after_set (ls ls' : LocalStorage) (key value : String)
    (h : fallbackStorage.set ls key value = .ok ls') :
    fallbackStorage.get ls' key = .ok (some value) := by
  simp only [fallbackStorage, LocalStorage.setItem] at h
  split at h
  · injection h with h
    subst h
    simp only [fallbackStorage, LocalStorage.getItem, find_putItem]
  · simp at h

/-- After a successful `set` of a key that starts with the listed text, `list` answers
keys among which the key is. -/
theorem fallbackStorage_list_after_set (ls ls' : LocalStorage) (key value pfx : String)
    (h : fallbackStorage.set ls key value = .ok ls') (hne : key ≠ "")
    (hpfx : startsWith key.data pfx.data = true) :
    ∃ keys, fallbackStorage.list ls' pfx = .ok (some keys) ∧ key ∈ keys := by
  simp only [fallbackStorage, LocalStorage.setItem] at h
  split at h
  · injection h with h
    subst h
    refine ⟨_, rfl, ?_⟩
    rw [List.mem_filter]
    exact ⟨mem_keys_putItem key value ls.items, by simp [hne, hpfx]⟩
  · simp at h

/-- Repeating a successful `set` succeeds again and leaves the store as it is. -/
theorem fallbackStorage_set_again (ls ls' : LocalStorage) (key value : String)
    (h : fallbackStorage.set ls key value = .ok ls') :
    fallbackStorage.set ls' key value = .ok ls' := by
  simp only [fallbackStorage, LocalStorage.setItem] at h ⊢
  split at h
  · next hq =>
    injection h with h
    subst h
    simp only [putItem_putItem, hq, if_true]
  · simp at h

/-- The key of a report starts with the listed text `report:` and is not empty. -/
theorem reportKey_listed (now : Nat) :
    "report:" ++ newReportId now ≠ "" ∧
    startsWith ("report:" ++ newReportId now).data "report:".data = true := by
  constructor
  · intro h
    have := congrArg String.data h
    simp [String.data_append] at this
  · rw [startsWith_iff, String.data_append]
    exact List.prefix_append _ _

/-! ## The status update of an unknown id -/

/-- When no entry has the id, `find` answers `undefined` or throws on a `null` entry. -/
theorem findById_of_no_match (reportId : String) (rs : List Json)
    (hno : ∀ r ∈ rs, hasId r reportId = false) :
    findById reportId rs = .ok none ∨ ∃ e, findById reportId rs = .error e := by
  cases h : findById reportId rs with
  | error e => exact Or.inr ⟨e, rfl⟩
  | ok found =>
    cases found with
    | none => exact Or.inl rfl
    | some report =>
      have hm := findById_mem reportId rs report h
      rw [hno report hm.1] at hm
      exact absurd hm.2 (by decide)

/-- When no entry has the id and no entry is `null`, `find` answers `undefined`. -/
theorem findById_none (reportId : String) (rs : List Json)
    (hno : ∀ r ∈ rs, hasId r reportId = false) (hnn : ∀ r ∈ rs, r ≠ Json.null) :
    findById reportId rs = .ok none := by
  induction rs with
  | nil => rfl
  | cons r rs ih =>
    unfold findById
    rw [getProp_of_ne_null r "id" (hnn r (List.mem_cons_self _ _))]
    have hr : strictEqString (lookupField "id" r.fields) reportId = false :=
      hno r (List.mem_cons_self _ _)
    simp only [hr, Bool.false_eq_true, if_false]
    exact ih (fun x hx => hno x (List.mem_cons_of_mem _ hx))
      (fun x hx => hnn x (List.mem_cons_of_mem _ hx))

/-- C11, refuted on the sample: the collection holds one report, the id `report_0` is not
its id, and `updateReportStatus` of that id does nothing at all; in particular it raises no
alert, so nothing tells the caller that the report was not found. -/
theorem updateReportStatus_unknown_id_silent :
    (∀ r ∈ created.app.reports, hasId r "report_0" = false) ∧
    updateReportStatus jsHost fallbackStorage "report_0" "resolved" created.store created.app
      = ⟨created.store, created.app, []⟩ := by
  decide!

/-- C11, amended: when no entry of the collection has the id, `updateReportStatus(id, target)`
calls no `set` and leaves the store and the whole state as they were, whatever the target;
and it does so silently: when no entry is `null` it does nothing that the caller could see,
no alert and no other event (there is no NotFound outcome). -/
theorem updateReportStatus_unknown_id {σ : Type} (H : Host) (S : Storage σ)
    (reportId newStatus : String) (store : σ) (app : App)
    (hno : ∀ r ∈ app.reports, hasId r reportId = false) :
    (∀ key value,
      Event.storageSet key value ∉ (updateReportStatus H S reportId newStatus store app).events) ∧
    (updateReportStatus H S reportId newStatus store app).store = store ∧
    (updateReportStatus H S reportId newStatus store app).app = app ∧
    ((∀ r ∈ app.reports, r ≠ Json.null) →
      (updateReportStatus H S reportId newStatus store app).events = []) := by
  rcases findById_of_no_match reportId app.reports hno with h | ⟨e, h⟩
  · have hrun : updateReportStatus H S reportId newStatus store app = ⟨store, app, []⟩ := by
      unfold updateReportStatus
      rw [h]
    rw [hrun]
    exact ⟨by intro key value; simp, rfl, rfl, fun _ => rfl⟩
  · have hrun : updateReportStatus H S reportId newStatus store app
        = ⟨store, app, [.alert "Failed to update status"]⟩ := by
      unfold updateReportStatus
      rw [h]
    rw [hrun]
    refine ⟨by intro key value; simp, rfl, rfl, ?_⟩
    intro hnn
    rw [findById_none reportId app.reports hno hnn] at h
    simp at h

/-- C11, amended, on the sample. -/
theorem updateReportStatus_unknown_id_witness :
    (updateReportStatus jsHost fallbackStorage "report_0" "resolved"
        created.store created.app).events = [] :=
  (updateReportStatus_unknown_id jsHost fallbackStorage "report_0" "resolved"
    created.store created.app (by decide!)).2.2.2 (by decide!)

/-! ## A failing write leaves the memory alone -/

/-- C12: when the `set` that `handleSubmitReport` calls fails, the store and the whole state
(the collection, and the form too) stay as they were and no success is announced; when the
`set` that `updateReportStatus` calls fails, the store and the whole state stay as they were
and the only answer is the failure alert.  And the collection changes only after a `set`
that succeeded: a run of either operation that changes the collection has called `set`
with success and carries the store that this `set` returned. -/
theorem set_failure_leaves_memory {σ : Type} (H : Host) (S : Storage σ) (store : σ)
    (app : App) :
    (∀ now today location e, app.formData.location = some location →
      S.set store ("report:" ++ newReportId now)
        (H.stringify (newReport H now today app.formData location)) = .error e →
      (handleSubmitReport H S now today store app).app = app ∧
      (handleSubmitReport H S now today store app).store = store ∧
      Event.alert "Report submitted successfully!"
        ∉ (handleSubmitReport H S now today store app).events) ∧
    (∀ reportId newStatus report e, findById reportId app.reports = .ok (some report) →
      S.set store ("report:" ++ reportId) (H.stringify (withStatus report newStatus))
        = .error e →
      (updateReportStatus H S reportId newStatus store app).app = app ∧
      (updateReportStatus H S reportId newStatus store app).store = store ∧
      (updateReportStatus H S reportId newStatus store app).events
        = [.storageSet ("report:" ++ reportId) (H.stringify (withStatus report newStatus)),
           .alert "Failed to update status"]) ∧
    (∀ now today, (handleSubmitReport H S now today store app).app.reports ≠ app.reports →
      ∃ location store', app.formData.location = some location ∧
        S.set store ("report:" ++ newReportId now)
          (H.stringify (newReport H now today app.formData location)) = .ok store' ∧
        (handleSubmitReport H S now today store app).store = store') ∧
    (∀ reportId newStatus,
      (updateReportStatus H S reportId newStatus store app).app.reports ≠ app.reports →
      ∃ report store', findById reportId app.reports = .ok (some report) ∧
        S.set store ("report:" ++ reportId) (H.stringify (withStatus report newStatus))
          = .ok store' ∧
        (updateReportStatus H S reportId newStatus store app).store = store') := by
  refine ⟨?_, ?_, ?_, ?_⟩
  · intro now today location e hloc hset
    by_cases hv : app.formData.userName = "" ∨ app.formData.description = ""
    · have hrun : handleSubmitReport H S now today store app
          = ⟨store, app, [.alert "Please fill in all required fields"]⟩ := by
        unfold handleSubmitReport
        rw [if_pos hv]
      rw [hrun]
      exact ⟨rfl, rfl, by simp⟩
    · have hrun : handleSubmitReport H S now today store app
          = ⟨store, app,
             [.storageSet ("report:" ++ newReportId now)
                (H.stringify (newReport H now today app.formData location)),
              .consoleError, .alert "Failed to submit report. Please try again."]⟩ := by
        unfold handleSubmitReport
        rw [if_neg hv, hloc]
        simp only [hset]
      rw [hrun]
      exact ⟨rfl, rfl, by simp⟩
  · intro reportId newStatus report e hfind hset
    have hrun : updateReportStatus H S reportId newStatus store app
        = ⟨store, app,
           [.storageSet ("report:" ++ reportId) (H.stringify (withStatus report newStatus)),
            .alert "Failed to update status"]⟩ := by
      unfold updateReportStatus
      rw [hfind]
      simp only [hset]
    rw [hrun]
    exact ⟨rfl, rfl, rfl⟩
  · intro now today hne
    by_cases hv : app.formData.userName = "" ∨ app.formData.description = ""
    · exfalso
      apply hne
      unfold handleSubmitReport
      rw [if_pos hv]
    · cases hloc : app.formData.location with
      | none =>
        exfalso
        apply hne
        unfold handleSubmitReport
        rw [if_neg hv, hloc]
      | some location =>
        cases hset : S.set store ("report:" ++ newReportId now)
            (H.stringify (newReport H now today app.formData location)) with
        | error e =>
          exfalso
          apply hne
          unfold handleSubmitReport
          rw [if_neg hv, hloc]
          simp only [hset]
        | ok store' =>
          refine ⟨location, store', rfl, hset, ?_⟩
          rw [handleSubmitReport_ok H S now today store store' app location
            (fun h => hv (Or.inl h)) (fun h => hv (Or.inr h)) hloc hset]
  · intro reportId newStatus hne
    cases hfind : findById reportId app.reports with
    | error e =>
      exfalso
      apply hne
      unfold updateReportStatus
      rw [hfind]
    | ok found =>
      cases found with
      | none =>
        exfalso
        apply hne
        unfold updateReportStatus
        rw [hfind]
      | some report =>
        cases hset : S.set store ("report:" ++ reportId)
            (H.stringify (withStatus report newStatus)) with
        | error e =>
          exfalso
          apply hne
          unfold updateReportStatus
          rw [hfind]
          simp only [hset]
        | ok store' =>
          refine ⟨report, store', rfl, hset, ?_⟩
          unfold updateReportStatus
          rw [hfind]
          simp only [hset]
          cases replaceById reportId (withStatus report newStatus) app.reports <;> rfl

/-- C12 on a `localStorage` without room: the submission of the sample form fails and
leaves the state, the filled form included; and the status update of the sample report
fails and leaves the state. -/
theorem set_failure_leaves_memory_witness :
    (handleSubmitReport jsHost fallbackStorage 1700000000000 1700000000001 fullStore
        sampleApp).app = sampleApp ∧
    (updateReportStatus jsHost fallbackStorage "report_1700000000000" "resolved" fullStore
        created.app).app = created.app :=
  ⟨((set_failure_leaves_memory jsHost fallbackStorage fullStore sampleApp).1 1700000000000
      1700000000001 sampleLocation .storageError rfl (by decide!)).1,
   ((set_failure_leaves_memory jsHost fallbackStorage fullStore created.app).2.1
      "report_1700000000000" "resolved" sampleReport .storageError (by decide!)
      (by decide!)).1⟩

/-! ## The frame of the status update -/

theorem hasId_iff (r : Json) (reportId : String) :
    hasId r reportId = true ↔ idOf r = some (.str reportId) := by
  unfold hasId idOf strictEqString
  cases h : lookupField "id" r.fields with
  | none => simp
  | some v => cases v <;> simp

/-- With pairwise distinct ids, the entries that have the id of `r` are `r` only. -/
theorem eq_of_hasId_of_nodup (reportId : String) (rs : List Json) (r : Json)
    (hdistinct : (rs.map idOf).Nodup) (hr : r ∈ rs) (hid : hasId r reportId = true) :
    ∀ x ∈ rs, hasId x reportId = true → x = r := by
  intro x hx hxid
  apply List.inj_on_of_nodup_map hdistinct hx hr
  rw [(hasId_iff x reportId).1 hxid, (hasId_iff r reportId).1 hid]

/-- When `r` is the only entry with the id and no entry is `null`, `find` answers `r`. -/
theorem findById_of_unique (reportId : String) (rs : List Json) (r : Json)
    (hnn : ∀ x ∈ rs, x ≠ Json.null) (hr : r ∈ rs) (hid : hasId r reportId = true)
    (huniq : ∀ x ∈ rs, hasId x reportId = true → x = r) :
    findById reportId rs = .ok (some r) := by
  induction rs with
  | nil => simp at hr
  | cons x rs ih =>
    unfold findById
    rw [getProp_of_ne_null x "id" (hnn x (List.mem_cons_self _ _))]
    by_cases hx : hasId x reportId = true
    · have hxr := huniq x (List.mem_cons_self _ _) hx
      have hx' : strictEqString (lookupField "id" x.fields) reportId = true := hx
      simp only [hx', if_true]
      rw [hxr]
    · have hx' : ¬ strictEqString (lookupField "id" x.fields) reportId = true := hx
      simp only [hx', if_false]
      have hrt : r ∈ rs := by
        rcases List.mem_cons.1 hr with h | h
        · subst h; exact absurd hid hx
        · exact h
      exact ih (fun y hy => hnn y (List.mem_cons_of_mem _ hy)) hrt
        (fun y hy => huniq y (List.mem_cons_of_mem _ hy))

/-- C13: for a collection without `null` entries whose ids are pairwise distinct and a
report `r` of it with the given id, when the write succeeds `updateReportStatus(id, target)`
writes the serialization of `r` with status `target` under `report:` followed by the id, and
nothing else; the collection keeps its length, at each position the entry is `r` with status
`target` where it was `r`, and is the entry it was elsewhere; and `r` with status `target`
has the status `target` and every other property of `r` (id, name, description, image,
location, severity, colour, date) with the value it had. -/
theorem updateReportStatus_frame {σ : Type} (H : Host) (S : Storage σ)
    (reportId newStatus : String) (store store' : σ) (app : App) (r : Json)
    (hnn : ∀ x ∈ app.reports, x ≠ Json.null)
    (hdistinct : (app.reports.map idOf).Nodup)
    (hr : r ∈ app.reports) (hid : hasId r reportId = true)
    (hset : S.set store ("report:" ++ reportId) (H.stringify (withStatus r newStatus))
      = .ok store') :
    (updateReportStatus H S reportId newStatus store app).events
      = [.storageSet ("report:" ++ reportId) (H.stringify (withStatus r newStatus))] ∧
    (updateReportStatus H S reportId newStatus store app).store = store' ∧
    (updateReportStatus H S reportId newStatus store app).app.reports.length
      = app.reports.length ∧
    (∀ i : Nat, (updateReportStatus H S reportId newStatus store app).app.reports[i]?
      = (app.reports[i]?).map (fun x => if x = r then withStatus r newStatus else x)) ∧
    statusOf (withStatus r newStatus) = some (.str newStatus) ∧
    (∀ k : String, k ≠ "status" →
      lookupField k (withStatus r newStatus).fields = lookupField k r.fields) := by
  have huniq := eq_of_hasId_of_nodup reportId app.reports r hdistinct hr hid
  have hfind := findById_of_unique reportId app.reports r hnn hr hid huniq
  rw [updateReportStatus_found H S reportId newStatus store store' app r hnn hfind hset]
  refine ⟨rfl, rfl, by simp, ?_, statusOf_withStatus _ _,
    fun k hk => lookupField_withStatus r newStatus k hk⟩
  intro i
  show (app.reports.map (fun x => if hasId x reportId then withStatus r newStatus else x))[i]?
    = _
  rw [List.getElem?_map]
  cases hi : app.reports[i]? with
  | none => rfl
  | some x =>
    have hx : x ∈ app.reports := List.getElem?_mem hi
    simp only [Option.map_some']
    by_cases hxr : x = r
    · subst hxr
      simp [hid]
    · have hxid : hasId x reportId = false := by
        cases h : hasId x reportId with
        | false => rfl
        | true => exact absurd (huniq x hx h) hxr
      simp [hxid, hxr]

/-- C13 on three reports of different ids: the second is marked resolved, the first and the
third stay. -/
theorem updateReportStatus_frame_witness :
    (updateReportStatus jsHost fallbackStorage "report_2000" "resolved" shuffledStore
        { sampleApp with reports := [reportAt 3000, reportAt 2000, reportAt 1000] }).app.reports
      = [reportAt 3000, withStatus (reportAt 2000) "resolved", reportAt 1000] := by
  have h := (updateReportStatus_frame jsHost fallbackStorage "report_2000" "resolved"
    shuffledStore
    (updateReportStatus jsHost fallbackStorage "report_2000" "resolved" shuffledStore
      { sampleApp with reports := [reportAt 3000, reportAt 2000, reportAt 1000] }).store
    { sampleApp with reports := [reportAt 3000, reportAt 2000, reportAt 1000] }
    (reportAt 2000) (by decide!) (by decide!) (by decide!) (by decide!) (by decide!)).2.2.2.1
  apply List.ext_getElem?
  intro i
  rw [h i]
  match i with
  | 0 => decide!
  | 1 => decide!
  | 2 => decide!
  | _ + 3 => rfl

/-! ## Severity and colour go together -/

theorem classifySeverity_mem_table (H : Host) (d : String) :
    classifySeverity H d ∈ severityTable := by
  unfold classifySeverity severityTable
  simp only
  split
  · simp
  · split <;> simp

theorem inTable_newReport (H : Host) (now today : Nat) (form : FormData)
    (location : Location) : InTable (newReport H now today form location) :=
  ⟨classifySeverity H form.description, classifySeverity_mem_table H form.description,
    by simp [newReport, Json.fields, lookupField], by simp [newReport, Json.fields, lookupField]⟩

theorem inTable_withStatus (r : Json) (t : String) (h : InTable r) :
    InTable (withStatus r t) := by
  obtain ⟨p, hp, h1, h2⟩ := h
  exact ⟨p, hp, by rw [lookupField_withStatus r t "severity" (by decide)]; exact h1,
    by rw [lookupField_withStatus r t "color" (by decide)]; exact h2⟩

/-- A replacement that does not throw yields entries of the list or the new value. -/
theorem mem_replaceById (reportId : String) (u : Json) (rs rs' : List Json)
    (h : replaceById reportId u rs = .ok rs') : ∀ x ∈ rs', x = u ∨ x ∈ rs := by
  induction rs generalizing rs' with
  | nil =>
    simp only [replaceById] at h
    injection h with h
    subst h
    intro x hx
    simp at hx
  | cons r rs ih =>
    unfold replaceById at h
    cases hp : r.getProp "id" with
    | error e => rw [hp] at h; simp at h
    | ok v =>
      rw [hp] at h
      simp only at h
      cases hrest : replaceById reportId u rs with
      | error e => rw [hrest] at h; simp at h
      | ok rest =>
        rw [hrest] at h
        injection h with h
        subst h
        intro x hx
        rcases List.mem_cons.1 hx with hx | hx
        · by_cases hv : strictEqString v reportId = true
          · rw [if_pos hv] at hx; exact Or.inl hx
          · rw [if_neg hv] at hx; exact Or.inr (by rw [hx]; exact List.mem_cons_self _ _)
        · rcases ih rest hrest x hx with h1 | h1
          · exact Or.inl h1
          · exact Or.inr (List.mem_cons_of_mem _ h1)

/-- The entries after a status update are entries of before or an entry of before with the
new status. -/
theorem mem_updateReportStatus {σ : Type} (H : Host) (S : Storage σ)
    (reportId newStatus : String) (store : σ) (app : App) :
    ∀ x ∈ (updateReportStatus H S reportId newStatus store app).app.reports,
      x ∈ app.reports ∨ ∃ r ∈ app.reports, x = withStatus r newStatus := by
  intro x hx
  unfold updateReportStatus at hx
  cases hfind : findById reportId app.reports with
  | error e => rw [hfind] at hx; exact Or.inl hx
  | ok found =>
    cases found with
    | none => rw [hfind] at hx; exact Or.inl hx
    | some report =>
      rw [hfind] at hx
      simp only at hx
      cases hset : S.set store ("report:" ++ reportId)
          (H.stringify (withStatus report newStatus)) with
      | error e => rw [hset] at hx; exact Or.inl hx
      | ok store' =>
        rw [hset] at hx
        simp only at hx
        cases hrep : replaceById reportId (withStatus report newStatus) app.reports with
        | error e => rw [hrep] at hx; exact Or.inl hx
        | ok reports' =>
          rw [hrep] at hx
          rcases mem_replaceById reportId _ app.reports reports' hrep x hx with h | h
          · exact Or.inr ⟨report, (findById_mem reportId app.reports report hfind).1, h⟩
          · exact Or.inl h

/-- The entries after a submission are the entries of before, and the new report if any. -/
theorem mem_handleSubmitReport {σ : Type} (H : Host) (S : Storage σ) (now today : Nat)
    (store : σ) (app : App) :
    ∀ x ∈ (handleSubmitReport H S now today store app).app.reports,
      x ∈ app.reports ∨ ∃ location, x = newReport H now today app.formData location := by
  intro x hx
  unfold handleSubmitReport at hx
  split at hx
  · exact Or.inl hx
  · split at hx
    · exact Or.inl hx
    · next location _ =>
      simp only at hx
      split at hx
      · rcases List.mem_cons.1 hx with h | h
        · exact Or.inr ⟨location, h⟩
        · exact Or.inl h
      · exact Or.inl hx

/-- C14: `classifySeverity` returns one of the three pairs (high, `#ef4444`), (medium,
`#eab308`), (low, `#22c55e`); in that table the level determines the colour and the colour
the level; the report that `handleSubmitReport` builds carries a pair of the table, a report
with a new status carries the pair it carried, and so, from a collection whose entries carry
pairs of the table (the empty one, say), every entry carries one after any sequence of
submissions and status updates. -/
theorem severity_color_consistent {σ : Type} (H : Host) (S : Storage σ) :
    (∀ d : String, classifySeverity H d ∈ severityTable) ∧
    severityTable.length = 3 ∧
    (∀ p ∈ severityTable, ∀ q ∈ severityTable, (p.level = q.level ↔ p.color = q.color)) ∧
    (∀ now today form location, InTable (newReport H now today form location)) ∧
    (∀ r t, InTable r → InTable (withStatus r t)) ∧
    (∀ (actions : List Action) (store : σ) (app : App), (∀ r ∈ app.reports, InTable r) →
      ∀ r ∈ (performAll H S actions store app).2.reports, InTable r) := by
  refine ⟨classifySeverity_mem_table H, rfl, by decide, inTable_newReport H,
    inTable_withStatus, ?_⟩
  intro actions
  induction actions with
  | nil => intro store app h; exact h
  | cons a rest ih =>
    intro store app h
    unfold performAll
    apply ih
    intro x hx
    cases a with
    | submit form now today =>
      rcases mem_handleSubmitReport H S now today store { app with formData := form } x hx
        with h1 | ⟨location, h1⟩
      · exact h x h1
      · rw [h1]; exact inTable_newReport H _ _ _ _
    | setStatus reportId newStatus =>
      rcases mem_updateReportStatus H S reportId newStatus store app x hx
        with h1 | ⟨r, hr, h1⟩
      · exact h x h1
      · rw [h1]; exact inTable_withStatus r newStatus (h r hr)

/-- C14 on the sample: after the submission and three status updates, the one report of the
collection is high and red. -/
theorem severity_color_consistent_witness :
    (∀ r ∈ (performAll jsHost fallbackStorage sampleActions emptyStore sampleApp).2.reports,
      InTable r) ∧
    (performAll jsHost fallbackStorage sampleActions emptyStore sampleApp).2.reports.map
        (fun r => (lookupField "severity" r.fields, lookupField "color" r.fields,
          lookupField "status" r.fields))
      = [(some (.str "high"), some (.str "#ef4444"), some (.str "pending"))] :=
  ⟨(severity_color_consistent jsHost fallbackStorage).2.2.2.2.2 sampleActions emptyStore
      sampleApp (by intro r hr; exact absurd hr (List.not_mem_nil r)),
   by decide!⟩

/-! ## The status buttons of the dashboard -/

theorem MovesForward.refl (a : App) : MovesForward a a :=
  ⟨rfl, fun _ => Or.inl rfl⟩

end SanitaryMap
